import Mathlib

/-!
Verification of the range-map core of the `discrete_range_map` repository
(`src/range_bounds_map.rs`, `src/try_from_bounds.rs`).

The map is embedded shallowly: a `RangeBoundsMap` is the ordered list of its
`(range, value)` entries (the contents of the backing `BTreeMap`, which is an
external collaborator and is modelled by its ordered-store contract), machine
values are ordinary Lean data, and every fallible operation returns an
`Except` result paired with the post-state of the map, mirroring the `&mut
self` methods of the source.

The repository modules `bound_ord.rs` and `helpers.rs` are imported by
`range_bounds_map.rs` but are not present under `src/`; the definitions
translated from them are marked `Modelled from the spec:` and follow spec
sections 4.1 and 4.2 word by word.
-/

set_option maxHeartbeats 1000000

namespace DiscreteRangeMap

/-- Shallow embedding of `std::ops::Bound<I>` (spec section 3). -/
inductive Bound (I : Type) where
  | unbounded : Bound I
  | included : I → Bound I
  | excluded : I → Bound I
deriving DecidableEq, Repr

/-- A raw range: the `(start_bound, end_bound)` pair that every `K : NiceRange<I>`
exposes (`K.start()`, `K.end()` in `range_bounds_map.rs`, lines 1220-1236). -/
abbrev BoundPair (I : Type) := Bound I × Bound I

/-- Modelled from the spec: the module `bound_ord.rs` (the Bound Ordering
Algebra, spec section 4.1) is imported by `range_bounds_map.rs` but missing from
`src/`.  A bound used in a given role ranks on a common scale so that the
cross-role comparisons of section 4.2 make sense: `ninf` is the rank of an
unbounded start, `pinf` of an unbounded end, and `fin v e` the rank of a bound
with value `v` and inclusivity offset `e` (`e = 0` for an included bound in
either role, `e = 1` for an excluded start, `e = -1` for an excluded end),
ordered lexicographically as the spec's `rank(bound, role)` prescribes. -/
inductive BoundOrd (I : Type) where
  | ninf : BoundOrd I
  | fin : I → Int → BoundOrd I
  | pinf : BoundOrd I
deriving DecidableEq, Repr

namespace BoundOrd

/-- Rank of a bound used as a start (spec 4.1: `Unbounded < Included v < Excluded v`). -/
def start {I : Type} : Bound I → BoundOrd I
  | Bound.unbounded => BoundOrd.ninf
  | Bound.included v => BoundOrd.fin v 0
  | Bound.excluded v => BoundOrd.fin v 1

/-- Rank of a bound used as an end (spec 4.1: `Excluded v < Included v < Unbounded`). -/
def endo {I : Type} : Bound I → BoundOrd I
  | Bound.unbounded => BoundOrd.pinf
  | Bound.included v => BoundOrd.fin v 0
  | Bound.excluded v => BoundOrd.fin v (-1)

/-- Strict comparison of ranks, lexicographic on `(value, offset)`. -/
def lt {I : Type} [LinearOrder I] : BoundOrd I → BoundOrd I → Bool
  | BoundOrd.ninf, BoundOrd.ninf => false
  | BoundOrd.ninf, _ => true
  | BoundOrd.fin _ _, BoundOrd.ninf => false
  | BoundOrd.fin v e, BoundOrd.fin w f => decide (v < w) || (decide (v = w) && decide (e < f))
  | BoundOrd.fin _ _, BoundOrd.pinf => true
  | BoundOrd.pinf, _ => false

end BoundOrd

/-- A valid range per spec section 3 invariant (c) and section 7: its start rank
does not exceed its end rank. -/
def validB {I : Type} [LinearOrder I] (k : BoundPair I) : Bool :=
  !(BoundOrd.lt (BoundOrd.endo k.2) (BoundOrd.start k.1))

namespace helpers

/-- Modelled from the spec: `helpers.rs` (imported by `range_bounds_map.rs` as
`crate::helpers::overlaps`) is missing from `src/`.  Spec section 4.2:
`overlaps(a, b)` is true iff `NOT(end-rank(a.end) < start-rank(b.start))` and
`NOT(end-rank(b.end) < start-rank(a.start))`. -/
def overlaps {I : Type} [LinearOrder I] (a b : BoundPair I) : Bool :=
  !(BoundOrd.lt (BoundOrd.endo a.2) (BoundOrd.start b.1)) &&
  !(BoundOrd.lt (BoundOrd.endo b.2) (BoundOrd.start a.1))

/-- Modelled from the spec: `crate::helpers::cmp_range_with_bound_ord` is
missing from `src/`.  Per the generalized bound search of spec section 4.3 it
places a stored range relative to a search rank: `lt` when the range lies
entirely below the rank, `gt` when entirely above, `eq` when the rank falls
within the range. -/
def cmp_range_with_bound_ord {I : Type} [LinearOrder I] (r : BoundPair I)
    (x : BoundOrd I) : Ordering :=
  if BoundOrd.lt (BoundOrd.endo r.2) x then Ordering.lt
  else if BoundOrd.lt x (BoundOrd.start r.1) then Ordering.gt
  else Ordering.eq

/-- Result of `helpers::cut_range` (spec section 4.2): the decomposition of
`target` against `cutter` into before/inside/after bound pairs. -/
structure CutResult (I : Type) where
  before_cut : Option (BoundPair I)
  inside_cut : Option (BoundPair I)
  after_cut : Option (BoundPair I)

/-- The end bound delimiting the part of a range strictly left of a cutter
start bound (spec 4.2: `before` is the portion of target strictly left of
`cutter.start`). -/
def flipStart {I : Type} : Bound I → Bound I
  | Bound.included v => Bound.excluded v
  | Bound.excluded v => Bound.included v
  | Bound.unbounded => Bound.unbounded

/-- The start bound delimiting the part of a range strictly right of a cutter
end bound. -/
def flipEnd {I : Type} : Bound I → Bound I
  | Bound.included v => Bound.excluded v
  | Bound.excluded v => Bound.included v
  | Bound.unbounded => Bound.unbounded

/-- The later of two start bounds under the start-rank order. -/
def maxStart {I : Type} [LinearOrder I] (a b : Bound I) : Bound I :=
  if BoundOrd.lt (BoundOrd.start a) (BoundOrd.start b) then b else a

/-- The earlier of two end bounds under the end-rank order. -/
def minEnd {I : Type} [LinearOrder I] (a b : Bound I) : Bound I :=
  if BoundOrd.lt (BoundOrd.endo a) (BoundOrd.endo b) then a else b

/-- Modelled from the spec: `crate::helpers::cut_range` is missing from `src/`.
Spec section 4.2: `inside` is the intersection (always present under the
overlap precondition), `before` is present iff `start-rank(target.start) <
start-rank(cutter.start)`, `after` iff `end-rank(cutter.end) <
end-rank(target.end)`. -/
def cut_range {I : Type} [LinearOrder I] (target cutter : BoundPair I) :
    CutResult I :=
  { before_cut :=
      if BoundOrd.lt (BoundOrd.start target.1) (BoundOrd.start cutter.1) then
        some (target.1, flipStart cutter.1)
      else none
    inside_cut := some (maxStart target.1 cutter.1, minEnd target.2 cutter.2)
    after_cut :=
      if BoundOrd.lt (BoundOrd.endo cutter.2) (BoundOrd.endo target.2) then
        some (flipEnd cutter.2, target.2)
      else none }

end helpers

/-- `OverlapError` from `range_bounds_map.rs`, line 138. -/
inductive OverlapError where
  | mk : OverlapError
deriving DecidableEq, Repr

/-- `TryFromBoundsError` from `range_bounds_map.rs`, line 263. -/
inductive TryFromBoundsError where
  | mk : TryFromBoundsError
deriving DecidableEq, Repr

/-- `RangeBoundsMap<I, K, V>`: the inner `BTreeMap` collaborator is modelled by
its contents, the list of entries in ascending tree order.  Keys are the raw
bound pairs exposed by `NiceRange`. -/
structure RangeBoundsMap (I V : Type) where
  inner : List (BoundPair I × V)
deriving DecidableEq

/-- The `TryFromBounds<I>` capability of a concrete range type `K`
(`try_from_bounds.rs`): a fallible constructor from a raw bound pair.  Since a
stored `K` is observed only through its bound pair, a `K` result is itself a
bound pair. -/
def Tfb (I : Type) := Bound I → Bound I → Option (BoundPair I)

/-- Every `TryFromBounds` impl in `try_from_bounds.rs` returns, when it
succeeds, a range whose bounds are exactly the requested ones. -/
def TfbFaithful {I : Type} (tfb : Tfb I) : Prop :=
  ∀ s e k, tfb s e = some k → k = (s, e)

namespace TryFromBounds

/-- `impl TryFromBounds for (Bound<I>, Bound<I>)` (`try_from_bounds.rs`, lines
27-34): always succeeds with the bounds themselves. -/
def pair {I : Type} : Tfb I := fun s e => some (s, e)

/-- `impl TryFromBounds for Range<I>` (`try_from_bounds.rs`, lines 36-46): only
an `Included` start with an `Excluded` end is representable. -/
def range {I : Type} : Tfb I := fun s e =>
  match s, e with
  | Bound.included _, Bound.excluded _ => some (s, e)
  | _, _ => none

end TryFromBounds

/-- Model of `BTreeMap::get_key_value` with an injected comparator (spec 4.3
capability (i)): the entry whose range the search rank falls within. -/
def storeGet {I V : Type} [LinearOrder I] (l : List (BoundPair I × V))
    (x : BoundOrd I) : Option (BoundPair I × V) :=
  l.find? (fun e => helpers.cmp_range_with_bound_ord e.1 x == Ordering.eq)

/-- Model of `BTreeMap::remove` with an injected comparator: removes and
returns the entry whose range the search rank falls within. -/
def storeRemove {I V : Type} [LinearOrder I] :
    List (BoundPair I × V) → BoundOrd I →
      Option (BoundPair I × V) × List (BoundPair I × V)
  | [], _ => (none, [])
  | e :: rest, x =>
    if helpers.cmp_range_with_bound_ord e.1 x == Ordering.eq then (some e, rest)
    else
      let r := storeRemove rest x
      (r.1, e :: r.2)

/-- Model of `BTreeMap::insert` with the `double_comp()` comparator
(`range_bounds_map.rs`, lines 1209-1218): entries are kept sorted by
`BoundOrd::start` of their start bound, and an entry with an equal sort key is
replaced. -/
def storeInsert {I V : Type} [LinearOrder I] (e : BoundPair I × V) :
    List (BoundPair I × V) → List (BoundPair I × V)
  | [] => [e]
  | f :: rest =>
    if BoundOrd.lt (BoundOrd.start e.1.1) (BoundOrd.start f.1.1) then
      e :: f :: rest
    else if BoundOrd.lt (BoundOrd.start f.1.1) (BoundOrd.start e.1.1) then
      f :: storeInsert e rest
    else e :: rest

namespace RangeBoundsMap

variable {I V : Type} [LinearOrder I]

/-- `RangeBoundsMap::new` (line 289). -/
def new : RangeBoundsMap I V := ⟨[]⟩

/-- `RangeBoundsMap::len` (line 308). -/
def len (m : RangeBoundsMap I V) : Nat := m.inner.length

/-- `RangeBoundsMap::is_empty` (line 325). -/
def is_empty (m : RangeBoundsMap I V) : Bool := m.inner.isEmpty

/-- `RangeBoundsMap::iter` (line 514): ascending traversal of the entries. -/
def iter (m : RangeBoundsMap I V) : List (BoundPair I × V) := m.inner

/-- `RangeBoundsMap::overlapping` (lines 389-404): the ordered sub-range of the
store between the comparator bounds `comp_start(range.start())` and
`comp_end(range.end())`, both `Included` — exactly the stored entries
overlapping the query in ascending order. -/
def overlapping (m : RangeBoundsMap I V) (q : BoundPair I) :
    List (BoundPair I × V) :=
  m.inner.filter (fun e => helpers.overlaps e.1 q)

/-- `RangeBoundsMap::overlaps` (lines 353-358):
`self.overlapping(range).next().is_some()`. -/
def overlaps (m : RangeBoundsMap I V) (q : BoundPair I) : Bool :=
  (m.overlapping q).head?.isSome

/-- `RangeBoundsMap::get_entry_at_point` (lines 489-491):
`self.inner.get_key_value(comp_start(Bound::Included(point)))`. -/
def get_entry_at_point (m : RangeBoundsMap I V) (p : I) :
    Option (BoundPair I × V) :=
  storeGet m.inner (BoundOrd.start (Bound.included p))

/-- `RangeBoundsMap::get_at_point` (lines 425-427). -/
def get_at_point (m : RangeBoundsMap I V) (p : I) : Option V :=
  (m.get_entry_at_point p).map Prod.snd

/-- `RangeBoundsMap::contains_point` (lines 447-449). -/
def contains_point (m : RangeBoundsMap I V) (p : I) : Bool :=
  (m.get_entry_at_point p).isSome

/-- `RangeBoundsMap::get_at_point_mut` (lines 467-469):
`self.inner.get_mut(comp_start(Bound::Included(point)))`; the mutable borrow is
modelled by the value it designates. -/
def get_at_point_mut (m : RangeBoundsMap I V) (p : I) : Option V :=
  (storeGet m.inner (BoundOrd.start (Bound.included p))).map Prod.snd

/-- `RangeBoundsMap::remove_overlapping` (lines 549-561):
`drain_filter(|inner_range, _| overlaps(*inner_range, range))` — first
component the drained entries in order, second the post-state. -/
def remove_overlapping (m : RangeBoundsMap I V) (q : BoundPair I) :
    List (BoundPair I × V) × RangeBoundsMap I V :=
  (m.inner.filter (fun e => helpers.overlaps e.1 q),
   ⟨m.inner.filter (fun e => !(helpers.overlaps e.1 q))⟩)

/-- `RangeBoundsMap::insert_strict` (lines 860-872). -/
def insert_strict (m : RangeBoundsMap I V) (k : BoundPair I) (v : V) :
    Except OverlapError Unit × RangeBoundsMap I V :=
  if m.overlaps k then (Except.error OverlapError.mk, m)
  else (Except.ok (), ⟨storeInsert (k, v) m.inner⟩)

/-- `RangeBoundsMap::insert_unchecked` (lines 873-875). -/
def insert_unchecked (m : RangeBoundsMap I V) (k : BoundPair I) (v : V) :
    RangeBoundsMap I V :=
  ⟨storeInsert (k, v) m.inner⟩

/-- The `K::try_from_bounds(start, end)?` pattern applied to an optional
remainder, as in lines 653-660 and 691-696: `none` passes through, a present
pair must be reconstructible or the whole operation errors. -/
def liftTfb {I : Type} (tfb : Tfb I) :
    Option (BoundPair I) → Except TryFromBoundsError (Option (BoundPair I))
  | none => Except.ok none
  | some p =>
    match tfb p.1 p.2 with
    | none => Except.error TryFromBoundsError.mk
    | some k => Except.ok (some k)

/-- `RangeBoundsMap::cut_single_overlapping` (lines 640-672).  Both remainders
are validated through `TryFromBounds` before the store is touched; the
`.unwrap()` calls of the source are modelled by `Option.getD`, with the
defaults unreachable in the contexts `cut` establishes. -/
def cut_single_overlapping [Inhabited V] (tfb : Tfb I) (m : RangeBoundsMap I V)
    (range single_overlapping_range : BoundPair I) :
    Except TryFromBoundsError (List (BoundPair I × V)) × RangeBoundsMap I V :=
  let cr := helpers.cut_range single_overlapping_range range
  match liftTfb tfb cr.before_cut, liftTfb tfb cr.after_cut with
  | Except.ok returning_before_cut, Except.ok returning_after_cut =>
    let rm := storeRemove m.inner (BoundOrd.start range.1)
    let value : V := (rm.1.map Prod.snd).getD default
    let l1 := rm.2
    let l2 :=
      match returning_before_cut with
      | some before => storeInsert (before, value) l1
      | none => l1
    let l3 :=
      match returning_after_cut with
      | some after => storeInsert (after, value) l2
      | none => l2
    (Except.ok [(cr.inside_cut.getD (Bound.unbounded, Bound.unbounded), value)],
     ⟨l3⟩)
  | Except.error e, _ => (Except.error e, m)
  | _, Except.error e => (Except.error e, m)

/-- `RangeBoundsMap::cut_non_single_overlapping` (lines 673-751).  The
`before_config`/`after_config` validations (with early `?` returns) happen
before the two removes and the reinsertions, exactly as in the source. -/
def cut_non_single_overlapping [Inhabited V] (tfb : Tfb I)
    (m : RangeBoundsMap I V) (range : BoundPair I)
    (left_overlapping right_overlapping : Option (BoundPair I)) :
    Except TryFromBoundsError (List (BoundPair I × V)) × RangeBoundsMap I V :=
  let junk : BoundPair I := (Bound.unbounded, Bound.unbounded)
  let bc : Except TryFromBoundsError
      (Option (Option (BoundPair I) × BoundPair I)) :=
    match left_overlapping with
    | none => Except.ok none
    | some before =>
      let cr := helpers.cut_range before range
      match liftTfb tfb cr.before_cut with
      | Except.error e => Except.error e
      | Except.ok rb => Except.ok (some (rb, cr.inside_cut.getD junk))
  let ac : Except TryFromBoundsError
      (Option (Option (BoundPair I) × BoundPair I)) :=
    match right_overlapping with
    | none => Except.ok none
    | some after =>
      let cr := helpers.cut_range after range
      match liftTfb tfb cr.after_cut with
      | Except.error e => Except.error e
      | Except.ok ra => Except.ok (some (ra, cr.inside_cut.getD junk))
  match bc, ac with
  | Except.ok before_config, Except.ok after_config =>
    let rm1 := storeRemove m.inner (BoundOrd.start range.1)
    let before_value := rm1.1.map Prod.snd
    let rm2 := storeRemove rm1.2 (BoundOrd.endo range.2)
    let after_value := rm2.1.map Prod.snd
    let l2 :=
      match before_config with
      | some (some returning_before_cut, _) =>
        storeInsert (returning_before_cut, before_value.getD default) rm2.2
      | _ => rm2.2
    let l3 :=
      match after_config with
      | some (some returning_after_cut, _) =>
        storeInsert (returning_after_cut, after_value.getD default) l2
      | _ => l2
    let keeping_before_entry :=
      before_config.map (fun c => (c.2, before_value.getD default))
    let keeping_after_entry :=
      after_config.map (fun c => (c.2, after_value.getD default))
    let dr := remove_overlapping ⟨l3⟩ range
    (Except.ok
      (keeping_before_entry.toList ++ dr.1 ++ keeping_after_entry.toList),
     dr.2)
  | Except.error e, _ => (Except.error e, m)
  | _, Except.error e => (Except.error e, m)

/-- `RangeBoundsMap::cut` (lines 615-639): look up the boundary entries at the
query's start and end ranks and dispatch on whether they are the same entry
(compared by their start bound). -/
def cut [Inhabited V] [DecidableEq I] (tfb : Tfb I) (m : RangeBoundsMap I V)
    (range : BoundPair I) :
    Except TryFromBoundsError (List (BoundPair I × V)) × RangeBoundsMap I V :=
  let left_overlapping :=
    (storeGet m.inner (BoundOrd.start range.1)).map Prod.fst
  let right_overlapping :=
    (storeGet m.inner (BoundOrd.endo range.2)).map Prod.fst
  match left_overlapping, right_overlapping with
  | some left, some right =>
    if left.1 = right.1 then cut_single_overlapping tfb m range left
    else cut_non_single_overlapping tfb m range (some left) (some right)
  | l, r => cut_non_single_overlapping tfb m range l r

/-- Modelled from the spec: the body of `insert_overwrite` (lines 1090-1096) is
`todo!()` in `src/`; its doc comment (lines 1061-1063) and spec section 4.4
define it as `cut(k)` followed by `insert_strict(k, v)`.  The `OverlapError`
branch of the trailing `insert_strict` is unreachable because `cut` clears all
coverage overlapping `k`. -/
def insert_overwrite [Inhabited V] [DecidableEq I] (tfb : Tfb I)
    (m : RangeBoundsMap I V) (k : BoundPair I) (v : V) :
    Except TryFromBoundsError Unit × RangeBoundsMap I V :=
  match cut tfb m k with
  | (Except.error e, m1) => (Except.error e, m1)
  | (Except.ok _, m1) => (Except.ok (), (insert_strict m1 k v).2)

end RangeBoundsMap

/-- The relation the spec's invariant (b) imposes between an entry and any
later entry: strictly ascending start rank, and (invariant (a)) no overlap. -/
def entR {I V : Type} [LinearOrder I] (a b : BoundPair I × V) : Prop :=
  BoundOrd.lt (BoundOrd.start a.1.1) (BoundOrd.start b.1.1) = true ∧
    helpers.overlaps a.1 b.1 = false

/-- The map invariant, spec section 3: (a) no two stored ranges overlap and
(b) `iter()` is ascending in start rank — together `Pairwise entR` — and
(c) every stored range is valid. -/
def Inv {I V : Type} [LinearOrder I] (m : RangeBoundsMap I V) : Prop :=
  m.iter.Pairwise entR ∧ ∀ e ∈ m.iter, validB e.1 = true

/-- One successful mutating call, as enumerated by the invariant claim:
`insert_strict` (successful), `remove_overlapping`, or a successful `cut`.
Range arguments satisfy the validity precondition of spec section 4.4. -/
inductive Step {I V : Type} [LinearOrder I] [DecidableEq I] [Inhabited V]
    (tfb : Tfb I) : RangeBoundsMap I V → RangeBoundsMap I V → Prop where
  | insert (m : RangeBoundsMap I V) (k : BoundPair I) (v : V)
      (hk : validB k = true)
      (hok : (m.insert_strict k v).1 = Except.ok ()) :
      Step tfb m (m.insert_strict k v).2
  | remove (m : RangeBoundsMap I V) (q : BoundPair I)
      (hq : validB q = true) :
      Step tfb m (m.remove_overlapping q).2
  | cutStep (m : RangeBoundsMap I V) (q : BoundPair I)
      (l : List (BoundPair I × V)) (hq : validB q = true)
      (hok : (RangeBoundsMap.cut tfb m q).1 = Except.ok l) :
      Step tfb m (RangeBoundsMap.cut tfb m q).2

namespace RangeBoundsMap

variable {I V : Type} [LinearOrder I]

/-- Modelled from the spec: every range-argument operation documents, in its
`# Panics` section in `src/range_bounds_map.rs`, that an invalid range aborts
the call (spec sections 4.4 and 7); the check itself is performed inside the
ordered-store collaborator and is not under `src/`.  `none` models the panic:
the operation neither returns nor mutates. -/
def checked_overlapping (m : RangeBoundsMap I V) (q : BoundPair I) :
    Option (List (BoundPair I × V)) :=
  if validB q then some (m.overlapping q) else none

/-- Modelled from the spec: panic guard for `overlaps`; see
`checked_overlapping`. -/
def checked_overlaps (m : RangeBoundsMap I V) (q : BoundPair I) : Option Bool :=
  if validB q then some (m.overlaps q) else none

/-- Modelled from the spec: panic guard for `remove_overlapping`; see
`checked_overlapping`. -/
def checked_remove_overlapping (m : RangeBoundsMap I V) (q : BoundPair I) :
    Option (List (BoundPair I × V) × RangeBoundsMap I V) :=
  if validB q then some (m.remove_overlapping q) else none

/-- Modelled from the spec: panic guard for `cut`; see `checked_overlapping`. -/
def checked_cut [Inhabited V] [DecidableEq I] (tfb : Tfb I)
    (m : RangeBoundsMap I V) (q : BoundPair I) :
    Option (Except TryFromBoundsError (List (BoundPair I × V)) ×
      RangeBoundsMap I V) :=
  if validB q then some (cut tfb m q) else none

/-- Modelled from the spec: panic guard for `insert_strict`; see
`checked_overlapping`. -/
def checked_insert_strict (m : RangeBoundsMap I V) (k : BoundPair I) (v : V) :
    Option (Except OverlapError Unit × RangeBoundsMap I V) :=
  if validB k then some (m.insert_strict k v) else none

end RangeBoundsMap

/-- The three-entry example map of spec section 8, scenarios A, B and C:
`{[1,4) -> false, [4,8) -> true, [8,100) -> false}` over `Int` with half-open
range keys. -/
def exampleMapABC : RangeBoundsMap Int Bool :=
  ⟨[((Bound.included 1, Bound.excluded 4), false),
    ((Bound.included 4, Bound.excluded 8), true),
    ((Bound.included 8, Bound.excluded 100), false)]⟩

/-- The map of spec section 8, scenario E: `{[2,8) -> true}` over a
half-open-only range type. -/
def exampleMapE : RangeBoundsMap Int Bool :=
  ⟨[((Bound.included 2, Bound.excluded 8), true)]⟩

/-- The map of spec section 8, scenario D after the first insert:
`insert_strict(5..10, 9)` applied to the empty map. -/
def exampleMapD : RangeBoundsMap Int Int :=
  (RangeBoundsMap.new.insert_strict (Bound.included 5, Bound.excluded 10) 9).2

section OrderLemmas

variable {I : Type} [LinearOrder I]

theorem boLt_irrefl (a : BoundOrd I) : BoundOrd.lt a a = false := by
  cases a <;> simp [BoundOrd.lt]

theorem boLt_trans {a b c : BoundOrd I} (h1 : BoundOrd.lt a b = true)
    (h2 : BoundOrd.lt b c = true) : BoundOrd.lt a c = true := by
  cases a <;> cases b <;> cases c <;> simp_all [BoundOrd.lt]
  rcases h1 with h1 | ⟨rfl, h1⟩ <;> rcases h2 with h2 | ⟨rfl, h2⟩
  · exact Or.inl (lt_trans h1 h2)
  · exact Or.inl h1
  · exact Or.inl h2
  · exact Or.inr ⟨rfl, lt_trans h1 h2⟩

theorem boLt_connex {a b : BoundOrd I} (h1 : BoundOrd.lt a b = false)
    (h2 : BoundOrd.lt b a = false) : a = b := by
  rcases a with _ | ⟨v, e⟩ | _ <;> rcases b with _ | ⟨w, f⟩ | _ <;>
    simp_all [BoundOrd.lt]
  have hvw : v = w := le_antisymm h2.1 h1.1
  refine ⟨hvw, ?_⟩
  have hfe : f ≤ e := h1.2 hvw
  have hef : e ≤ f := h2.2 hvw.symm
  omega

theorem boLt_asymm {a b : BoundOrd I} (h : BoundOrd.lt a b = true) :
    BoundOrd.lt b a = false := by
  by_contra hc
  have hba : BoundOrd.lt b a = true := by
    cases hx : BoundOrd.lt b a
    · exact absurd hx hc
    · rfl
  have := boLt_trans h hba
  rw [boLt_irrefl] at this
  exact Bool.false_ne_true this

theorem boLt_of_not_not {a b : BoundOrd I} (hne : a ≠ b)
    (h : BoundOrd.lt a b = false) : BoundOrd.lt b a = true := by
  cases hx : BoundOrd.lt b a
  · exact absurd (boLt_connex h hx) hne
  · rfl

end OrderLemmas

section MoreOrderLemmas

variable {I : Type} [LinearOrder I]

theorem boLt_of_lt_of_le {a b c : BoundOrd I} (h1 : BoundOrd.lt a b = true)
    (h2 : BoundOrd.lt c b = false) : BoundOrd.lt a c = true := by
  by_cases hbc : b = c
  · exact hbc ▸ h1
  · exact boLt_trans h1 (boLt_of_not_not (fun h => hbc h.symm) h2)

theorem boLt_of_le_of_lt {a b c : BoundOrd I} (h1 : BoundOrd.lt b a = false)
    (h2 : BoundOrd.lt b c = true) : BoundOrd.lt a c = true := by
  by_cases hab : b = a
  · exact hab ▸ h2
  · exact boLt_trans (boLt_of_not_not hab h1) h2

theorem boLe_trans {a b c : BoundOrd I} (h1 : BoundOrd.lt b a = false)
    (h2 : BoundOrd.lt c b = false) : BoundOrd.lt c a = false := by
  cases hx : BoundOrd.lt c a
  · rfl
  · have := boLt_of_lt_of_le hx h1
    rw [h2] at this
    exact this.symm

end MoreOrderLemmas

section OverlapLemmas

variable {I : Type} [LinearOrder I]

theorem ov_eq_true_iff {a b : BoundPair I} :
    helpers.overlaps a b = true ↔
      BoundOrd.lt (BoundOrd.endo a.2) (BoundOrd.start b.1) = false ∧
        BoundOrd.lt (BoundOrd.endo b.2) (BoundOrd.start a.1) = false := by
  simp [helpers.overlaps]

theorem ov_eq_false_iff {a b : BoundPair I} :
    helpers.overlaps a b = false ↔
      (BoundOrd.lt (BoundOrd.endo a.2) (BoundOrd.start b.1) = true ∨
        BoundOrd.lt (BoundOrd.endo b.2) (BoundOrd.start a.1) = true) := by
  simp [helpers.overlaps, Bool.not_eq_true', or_iff_not_imp_left]

theorem ov_symm (a b : BoundPair I) :
    helpers.overlaps a b = helpers.overlaps b a := by
  simp only [helpers.overlaps]
  exact Bool.and_comm _ _

theorem cmp_eq_iff {r : BoundPair I} {x : BoundOrd I} :
    (helpers.cmp_range_with_bound_ord r x == Ordering.eq) = true ↔
      BoundOrd.lt (BoundOrd.endo r.2) x = false ∧
        BoundOrd.lt x (BoundOrd.start r.1) = false := by
  unfold helpers.cmp_range_with_bound_ord
  split_ifs with h1 h2
  · rw [show (Ordering.lt == Ordering.eq) = false from rfl]
    simp [h1]
  · rw [show (Ordering.gt == Ordering.eq) = false from rfl]
    simp [h1, h2]
  · rw [show (Ordering.eq == Ordering.eq) = true from rfl]
    simp [h1, h2]

theorem valid_self_overlap {k : BoundPair I} (h : validB k = true) :
    helpers.overlaps k k = true := by
  unfold validB at h
  rw [Bool.not_eq_true'] at h
  exact ov_eq_true_iff.mpr ⟨h, h⟩

theorem eq_start_overlap {a b : BoundPair I}
    (ha : validB a = true) (hb : validB b = true)
    (h1 : BoundOrd.lt (BoundOrd.start a.1) (BoundOrd.start b.1) = false)
    (h2 : BoundOrd.lt (BoundOrd.start b.1) (BoundOrd.start a.1) = false) :
    helpers.overlaps a b = true := by
  have heq : BoundOrd.start b.1 = BoundOrd.start a.1 := boLt_connex h2 h1
  unfold validB at ha hb
  rw [Bool.not_eq_true'] at ha hb
  refine ov_eq_true_iff.mpr ⟨?_, ?_⟩
  · rw [heq]; exact ha
  · rw [← heq]; exact hb

theorem contains_contains_overlap {a b : BoundPair I} {x : BoundOrd I}
    (ha : (helpers.cmp_range_with_bound_ord a x == Ordering.eq) = true)
    (hb : (helpers.cmp_range_with_bound_ord b x == Ordering.eq) = true) :
    helpers.overlaps a b = true := by
  obtain ⟨ha1, ha2⟩ := cmp_eq_iff.mp ha
  obtain ⟨hb1, hb2⟩ := cmp_eq_iff.mp hb
  refine ov_eq_true_iff.mpr ⟨?_, ?_⟩
  · cases hx : BoundOrd.lt (BoundOrd.endo a.2) (BoundOrd.start b.1)
    · rfl
    · have := boLt_of_lt_of_le (boLt_of_le_of_lt ha1 hx) hb2
      rw [boLt_irrefl] at this
      exact this.symm
  · cases hx : BoundOrd.lt (BoundOrd.endo b.2) (BoundOrd.start a.1)
    · rfl
    · have := boLt_of_lt_of_le (boLt_of_le_of_lt hb1 hx) ha2
      rw [boLt_irrefl] at this
      exact this.symm

theorem ov_mono {s b f : BoundPair I}
    (hs : BoundOrd.lt (BoundOrd.start b.1) (BoundOrd.start s.1) = false)
    (he : BoundOrd.lt (BoundOrd.endo s.2) (BoundOrd.endo b.2) = false)
    (h : helpers.overlaps f b = true) : helpers.overlaps f s = true := by
  obtain ⟨h1, h2⟩ := ov_eq_true_iff.mp h
  refine ov_eq_true_iff.mpr ⟨?_, ?_⟩
  · cases hx : BoundOrd.lt (BoundOrd.endo f.2) (BoundOrd.start s.1)
    · rfl
    · have := boLt_of_lt_of_le hx hs
      rw [h1] at this
      exact this.symm
  · cases hx : BoundOrd.lt (BoundOrd.endo s.2) (BoundOrd.start f.1)
    · rfl
    · have := boLt_of_le_of_lt he hx
      rw [h2] at this
      exact this.symm

theorem ov_not_mono {s b f : BoundPair I}
    (hs : BoundOrd.lt (BoundOrd.start b.1) (BoundOrd.start s.1) = false)
    (he : BoundOrd.lt (BoundOrd.endo s.2) (BoundOrd.endo b.2) = false)
    (h : helpers.overlaps f s = false) : helpers.overlaps f b = false := by
  cases hx : helpers.overlaps f b
  · rfl
  · rw [ov_mono hs he hx] at h
    exact h

end OverlapLemmas

section FlipLemmas

variable {I : Type} [LinearOrder I]

theorem boLt_to_ninf (y : BoundOrd I) :
    BoundOrd.lt y BoundOrd.ninf = false := by
  cases y <;> rfl

theorem boLt_from_pinf (y : BoundOrd I) :
    BoundOrd.lt BoundOrd.pinf y = false := rfl

theorem boLt_fin_iff {v w : I} {e f : Int} :
    BoundOrd.lt (BoundOrd.fin v e) (BoundOrd.fin w f) = true ↔
      v < w ∨ (v = w ∧ e < f) := by
  simp [BoundOrd.lt]

theorem boLt_fin_false_iff {v w : I} {e f : Int} :
    BoundOrd.lt (BoundOrd.fin v e) (BoundOrd.fin w f) = false ↔
      w < v ∨ (w = v ∧ f ≤ e) := by
  rw [← Bool.not_eq_true, boLt_fin_iff]
  constructor
  · intro h
    push_neg at h
    rcases lt_trichotomy w v with h1 | h1 | h1
    · exact Or.inl h1
    · exact Or.inr ⟨h1, h.2 h1.symm⟩
    · exact absurd h1 (not_lt_of_ge h.1)
  · intro h
    push_neg
    rcases h with h | ⟨rfl, h⟩
    · exact ⟨le_of_lt h, fun hvw => absurd h (by rw [hvw]; exact lt_irrefl w)⟩
    · exact ⟨le_refl _, fun _ => h⟩

theorem flip_start_ge {y : BoundOrd I} {s : Bound I}
    (h : BoundOrd.lt y (BoundOrd.start s) = true) :
    BoundOrd.lt (BoundOrd.endo (helpers.flipStart s)) y = false := by
  rcases s with _ | v | v
  · rw [show BoundOrd.start (Bound.unbounded : Bound I) = BoundOrd.ninf
      from rfl, boLt_to_ninf] at h
    cases h
  · rcases y with _ | ⟨w, e⟩ | _
    · rfl
    · rw [show BoundOrd.start (Bound.included v) = BoundOrd.fin v 0 from rfl,
        boLt_fin_iff] at h
      rw [show BoundOrd.endo (helpers.flipStart (Bound.included v)) =
        BoundOrd.fin v (-1) from rfl, boLt_fin_false_iff]
      rcases h with h | ⟨h1, h2⟩
      · exact Or.inl h
      · exact Or.inr ⟨h1, by omega⟩
    · rw [show BoundOrd.lt (BoundOrd.pinf : BoundOrd I)
        (BoundOrd.start (Bound.included v)) = false from rfl] at h
      cases h
  · rcases y with _ | ⟨w, e⟩ | _
    · rfl
    · rw [show BoundOrd.start (Bound.excluded v) = BoundOrd.fin v 1 from rfl,
        boLt_fin_iff] at h
      rw [show BoundOrd.endo (helpers.flipStart (Bound.excluded v)) =
        BoundOrd.fin v 0 from rfl, boLt_fin_false_iff]
      rcases h with h | ⟨h1, h2⟩
      · exact Or.inl h
      · exact Or.inr ⟨h1, by omega⟩
    · rw [show BoundOrd.lt (BoundOrd.pinf : BoundOrd I)
        (BoundOrd.start (Bound.excluded v)) = false from rfl] at h
      cases h

theorem flip_end_le {y : BoundOrd I} {s : Bound I}
    (h : BoundOrd.lt (BoundOrd.endo s) y = true) :
    BoundOrd.lt y (BoundOrd.start (helpers.flipEnd s)) = false := by
  rcases s with _ | v | v
  · rw [show BoundOrd.endo (Bound.unbounded : Bound I) = BoundOrd.pinf
      from rfl, boLt_from_pinf] at h
    cases h
  · rcases y with _ | ⟨w, e⟩ | _
    · rw [show BoundOrd.lt (BoundOrd.endo (Bound.included v))
        (BoundOrd.ninf : BoundOrd I) = false from rfl] at h
      cases h
    · rw [show BoundOrd.endo (Bound.included v) = BoundOrd.fin v 0 from rfl,
        boLt_fin_iff] at h
      rw [show BoundOrd.start (helpers.flipEnd (Bound.included v)) =
        BoundOrd.fin v 1 from rfl, boLt_fin_false_iff]
      rcases h with h | ⟨h1, h2⟩
      · exact Or.inl h
      · exact Or.inr ⟨h1, by omega⟩
    · exact boLt_from_pinf _
  · rcases y with _ | ⟨w, e⟩ | _
    · rw [show BoundOrd.lt (BoundOrd.endo (Bound.excluded v))
        (BoundOrd.ninf : BoundOrd I) = false from rfl] at h
      cases h
    · rw [show BoundOrd.endo (Bound.excluded v) = BoundOrd.fin v (-1)
        from rfl, boLt_fin_iff] at h
      rw [show BoundOrd.start (helpers.flipEnd (Bound.excluded v)) =
        BoundOrd.fin v 0 from rfl, boLt_fin_false_iff]
      rcases h with h | ⟨h1, h2⟩
      · exact Or.inl h
      · exact Or.inr ⟨h1, by omega⟩
    · exact boLt_from_pinf _

theorem flip_start_lt_self {y : BoundOrd I} {s : Bound I}
    (h : BoundOrd.lt y (BoundOrd.start s) = true) :
    BoundOrd.lt (BoundOrd.endo (helpers.flipStart s)) (BoundOrd.start s) =
      true := by
  rcases s with _ | v | v
  · rw [show BoundOrd.start (Bound.unbounded : Bound I) = BoundOrd.ninf
      from rfl, boLt_to_ninf] at h
    cases h
  · rw [show BoundOrd.endo (helpers.flipStart (Bound.included v)) =
      BoundOrd.fin v (-1) from rfl,
      show BoundOrd.start (Bound.included v) = BoundOrd.fin v 0 from rfl,
      boLt_fin_iff]
    exact Or.inr ⟨rfl, by omega⟩
  · rw [show BoundOrd.endo (helpers.flipStart (Bound.excluded v)) =
      BoundOrd.fin v 0 from rfl,
      show BoundOrd.start (Bound.excluded v) = BoundOrd.fin v 1 from rfl,
      boLt_fin_iff]
    exact Or.inr ⟨rfl, by omega⟩

theorem flip_end_gt_self {y : BoundOrd I} {s : Bound I}
    (h : BoundOrd.lt (BoundOrd.endo s) y = true) :
    BoundOrd.lt (BoundOrd.endo s) (BoundOrd.start (helpers.flipEnd s)) =
      true := by
  rcases s with _ | v | v
  · rw [show BoundOrd.endo (Bound.unbounded : Bound I) = BoundOrd.pinf
      from rfl, boLt_from_pinf] at h
    cases h
  · rw [show BoundOrd.start (helpers.flipEnd (Bound.included v)) =
      BoundOrd.fin v 1 from rfl,
      show BoundOrd.endo (Bound.included v) = BoundOrd.fin v 0 from rfl,
      boLt_fin_iff]
    exact Or.inr ⟨rfl, by omega⟩
  · rw [show BoundOrd.start (helpers.flipEnd (Bound.excluded v)) =
      BoundOrd.fin v 0 from rfl,
      show BoundOrd.endo (Bound.excluded v) = BoundOrd.fin v (-1) from rfl,
      boLt_fin_iff]
    exact Or.inr ⟨rfl, by omega⟩

theorem flip_sep {y z : BoundOrd I} {s t : Bound I}
    (h1 : BoundOrd.lt y (BoundOrd.start s) = true)
    (h2 : BoundOrd.lt (BoundOrd.endo t) z = true)
    (hv : BoundOrd.lt (BoundOrd.endo t) (BoundOrd.start s) = false) :
    BoundOrd.lt (BoundOrd.endo (helpers.flipStart s))
      (BoundOrd.start (helpers.flipEnd t)) = true := by
  exact boLt_trans (boLt_of_lt_of_le (flip_start_lt_self h1) hv)
    (flip_end_gt_self h2)

end FlipLemmas

section ListLemmas

variable {I V : Type} [LinearOrder I]

theorem bool_eq_false {b : Bool} (h : ¬(b = true)) : b = false := by
  cases b
  · rfl
  · exact absurd rfl h

theorem find?_eq_head?_filter {α : Type} (p : α → Bool) (l : List α) :
    l.find? p = (l.filter p).head? := by
  induction l with
  | nil => rfl
  | cons a t ih =>
    by_cases h : p a = true
    · rw [List.find?_cons_of_pos _ h, List.filter_cons_of_pos h]
      rfl
    · rw [List.find?_cons_of_neg _ h, List.filter_cons_of_neg h, ih]

theorem self_mem_storeInsert (e : BoundPair I × V)
    (l : List (BoundPair I × V)) : e ∈ storeInsert e l := by
  induction l with
  | nil => simp [storeInsert]
  | cons f t ih =>
    unfold storeInsert
    split_ifs with h1 h2
    · simp
    · simp [ih]
    · simp

theorem mem_storeInsert {e x : BoundPair I × V} {l : List (BoundPair I × V)}
    (h : x ∈ storeInsert e l) : x = e ∨ x ∈ l := by
  induction l with
  | nil =>
    simp [storeInsert] at h
    exact Or.inl h
  | cons f t ih =>
    unfold storeInsert at h
    split_ifs at h with h1 h2
    · rcases List.mem_cons.mp h with rfl | h
      · exact Or.inl rfl
      · exact Or.inr h
    · rcases List.mem_cons.mp h with rfl | h
      · exact Or.inr (by simp)
      · rcases ih h with rfl | h
        · exact Or.inl rfl
        · exact Or.inr (by simp [h])
    · rcases List.mem_cons.mp h with rfl | h
      · exact Or.inl rfl
      · exact Or.inr (by simp [h])

theorem storeInsert_inv {e : BoundPair I × V} {l : List (BoundPair I × V)}
    (hl : l.Pairwise entR) (hv : ∀ f ∈ l, validB f.1 = true)
    (he : validB e.1 = true)
    (hno : ∀ f ∈ l, helpers.overlaps e.1 f.1 = false) :
    (storeInsert e l).Pairwise entR ∧
      ∀ f ∈ storeInsert e l, validB f.1 = true := by
  induction l with
  | nil =>
    refine ⟨by simp [storeInsert], ?_⟩
    intro f hf
    simp [storeInsert] at hf
    subst hf
    exact he
  | cons g t ih =>
    rw [List.pairwise_cons] at hl
    obtain ⟨hgall, ht⟩ := hl
    by_cases h1 : BoundOrd.lt (BoundOrd.start e.1.1) (BoundOrd.start g.1.1) =
      true
    · rw [show storeInsert e (g :: t) = e :: g :: t from by
        simp [storeInsert, h1]]
      refine ⟨?_, ?_⟩
      · rw [List.pairwise_cons]
        refine ⟨?_, List.pairwise_cons.mpr ⟨hgall, ht⟩⟩
        intro f hf
        rcases List.mem_cons.mp hf with rfl | hf
        · exact ⟨h1, hno f (by simp)⟩
        · exact ⟨boLt_trans h1 (hgall f hf).1, hno f (by simp [hf])⟩
      · intro f hf
        rcases List.mem_cons.mp hf with rfl | hf
        · exact he
        · exact hv f hf
    · by_cases h2 : BoundOrd.lt (BoundOrd.start g.1.1) (BoundOrd.start e.1.1) =
        true
      · rw [show storeInsert e (g :: t) = g :: storeInsert e t from by
          simp [storeInsert, bool_eq_false h1, h2]]
        have hrec := ih ht (fun f hf => hv f (List.mem_cons_of_mem g hf))
          (fun f hf => hno f (List.mem_cons_of_mem g hf))
        refine ⟨?_, ?_⟩
        · rw [List.pairwise_cons]
          refine ⟨?_, hrec.1⟩
          intro f hf
          rcases mem_storeInsert hf with rfl | hf
          · refine ⟨h2, ?_⟩
            rw [ov_symm]
            exact hno g (by simp)
          · exact hgall f hf
        · intro f hf
          rcases List.mem_cons.mp hf with rfl | hf
          · exact hv f (by simp)
          · exact hrec.2 f hf
      · exfalso
        have hov := eq_start_overlap he (hv g (by simp)) (bool_eq_false h1)
          (bool_eq_false h2)
        rw [hno g (by simp)] at hov
        exact Bool.false_ne_true hov

theorem storeRemove_fst (l : List (BoundPair I × V)) (x : BoundOrd I) :
    (storeRemove l x).1 =
      l.find? (fun e => helpers.cmp_range_with_bound_ord e.1 x ==
        Ordering.eq) := by
  induction l with
  | nil => rfl
  | cons a t ih =>
    by_cases h : (helpers.cmp_range_with_bound_ord a.1 x == Ordering.eq) = true
    · simp [storeRemove, h, List.find?_cons]
    · simp [storeRemove, bool_eq_false h, List.find?_cons, ih]

theorem storeRemove_none_snd {l : List (BoundPair I × V)} {x : BoundOrd I}
    (h : (storeRemove l x).1 = none) : (storeRemove l x).2 = l := by
  induction l with
  | nil => rfl
  | cons a t ih =>
    by_cases hc : (helpers.cmp_range_with_bound_ord a.1 x == Ordering.eq) = true
    · simp [storeRemove, hc] at h
    · simp only [storeRemove, bool_eq_false hc, Bool.false_eq_true,
        if_false] at h ⊢
      rw [ih h]

theorem storeRemove_decomp {l : List (BoundPair I × V)} {x : BoundOrd I}
    {e : BoundPair I × V} (h : (storeRemove l x).1 = some e) :
    ∃ l1 l2, l = l1 ++ e :: l2 ∧ (storeRemove l x).2 = l1 ++ l2 ∧
      (helpers.cmp_range_with_bound_ord e.1 x == Ordering.eq) = true := by
  induction l with
  | nil => simp [storeRemove] at h
  | cons a t ih =>
    by_cases hc : (helpers.cmp_range_with_bound_ord a.1 x == Ordering.eq) = true
    · have hae : a = e := by
        simp [storeRemove, hc] at h
        exact h
      refine ⟨[], t, ?_, ?_, ?_⟩
      · rw [hae]
        rfl
      · simp [storeRemove, hc]
      · rw [← hae]
        exact hc
    · have h' : (storeRemove t x).1 = some e := by
        simpa [storeRemove, bool_eq_false hc] using h
      obtain ⟨l1, l2, hd1, hd2, hd3⟩ := ih h'
      refine ⟨a :: l1, l2, by simp [hd1], ?_, hd3⟩
      simp only [storeRemove, bool_eq_false hc, Bool.false_eq_true, if_false]
      simp [hd2]

theorem pairwise_unique_overlap {l : List (BoundPair I × V)}
    (hl : l.Pairwise entR) {a b : BoundPair I × V}
    (ha : a ∈ l) (hb : b ∈ l)
    (hov : helpers.overlaps a.1 b.1 = true) : a = b := by
  by_cases hab : a = b
  · exact hab
  · exfalso
    have hS : List.Pairwise
        (fun p q : BoundPair I × V => helpers.overlaps p.1 q.1 = false) l :=
      hl.imp (fun h => h.2)
    have hsym : Symmetric
        (fun p q : BoundPair I × V => helpers.overlaps p.1 q.1 = false) := by
      intro p q h
      rw [ov_symm]
      exact h
    have := hS.forall hsym ha hb hab
    rw [hov] at this
    exact Bool.false_ne_true this.symm

end ListLemmas

section MapLemmas

variable {I V : Type} [LinearOrder I]

theorem overlaps_false_iff {m : RangeBoundsMap I V} {q : BoundPair I} :
    m.overlaps q = false ↔ ∀ f ∈ m.inner, helpers.overlaps f.1 q = false := by
  unfold RangeBoundsMap.overlaps RangeBoundsMap.overlapping
  constructor
  · intro h f hf
    cases hx : helpers.overlaps f.1 q
    · rfl
    · exfalso
      have hmem : f ∈ m.inner.filter (fun e => helpers.overlaps e.1 q) :=
        List.mem_filter.mpr ⟨hf, hx⟩
      cases hl : m.inner.filter (fun e => helpers.overlaps e.1 q) with
      | nil =>
        rw [hl] at hmem
        cases hmem
      | cons a t =>
        rw [hl] at h
        simp [List.head?] at h
  · intro h
    have hnil : m.inner.filter (fun e => helpers.overlaps e.1 q) = [] := by
      rw [List.filter_eq_nil_iff]
      intro a ha
      simp [h a ha]
    rw [hnil]
    rfl

theorem overlaps_true_iff {m : RangeBoundsMap I V} {q : BoundPair I} :
    m.overlaps q = true ↔ ∃ f ∈ m.inner, helpers.overlaps f.1 q = true := by
  constructor
  · intro h
    by_contra hc
    push_neg at hc
    have hff : m.overlaps q = false := overlaps_false_iff.mpr
      (fun f hf => bool_eq_false (hc f hf))
    rw [h] at hff
    exact Bool.false_ne_true hff.symm
  · rintro ⟨f, hf, hov⟩
    cases hx : m.overlaps q
    · rw [overlaps_false_iff.mp hx f hf] at hov
      exact absurd hov Bool.false_ne_true
    · rfl

theorem filter_not_filter (p : α → Bool) (l : List α) :
    (l.filter (fun a => !(p a))).filter p = [] := by
  induction l with
  | nil => rfl
  | cons a t ih =>
    by_cases h : p a = true
    · simp only [List.filter_cons, h, Bool.not_true, Bool.false_eq_true,
        if_false]
      exact ih
    · simp only [List.filter_cons, bool_eq_false h, Bool.not_false, if_true,
        Bool.false_eq_true, if_false]
      exact ih

theorem point_pred_eq (e : BoundPair I) (p : I) :
    (helpers.cmp_range_with_bound_ord e (BoundOrd.start (Bound.included p)) ==
        Ordering.eq) =
      helpers.overlaps e (Bound.included p, Bound.included p) := by
  have hpe : BoundOrd.endo
      ((Bound.included p, Bound.included p) : BoundPair I).2 =
      BoundOrd.start (Bound.included p) := rfl
  by_cases h : (helpers.cmp_range_with_bound_ord e
      (BoundOrd.start (Bound.included p)) == Ordering.eq) = true
  · rw [h]
    obtain ⟨h1, h2⟩ := cmp_eq_iff.mp h
    refine (ov_eq_true_iff.mpr ⟨h1, ?_⟩).symm
    rw [hpe]
    exact h2
  · rw [bool_eq_false h]
    symm
    cases hx : helpers.overlaps e (Bound.included p, Bound.included p)
    · rfl
    · exfalso
      obtain ⟨h1, h2⟩ := ov_eq_true_iff.mp hx
      rw [hpe] at h2
      exact h (cmp_eq_iff.mpr ⟨h1, h2⟩)

end MapLemmas

section CutLemmas

variable {I V : Type} [LinearOrder I]

theorem liftTfb_ok {tfb : Tfb I} (hf : TfbFaithful tfb)
    {o r : Option (BoundPair I)}
    (h : RangeBoundsMap.liftTfb tfb o = Except.ok r) : r = o := by
  cases o with
  | none =>
    simp only [RangeBoundsMap.liftTfb] at h
    exact (Except.ok.inj h).symm
  | some p =>
    simp only [RangeBoundsMap.liftTfb] at h
    cases ht : tfb p.1 p.2 with
    | none =>
      rw [ht] at h
      cases h
    | some k =>
      rw [ht] at h
      have hk := hf p.1 p.2 k ht
      rw [← Except.ok.inj h, hk]

theorem storeGet_some {l : List (BoundPair I × V)} {x : BoundOrd I}
    {ent : BoundPair I × V} (h : storeGet l x = some ent) :
    ent ∈ l ∧
      (helpers.cmp_range_with_bound_ord ent.1 x == Ordering.eq) = true := by
  refine ⟨List.mem_of_find?_eq_some h, ?_⟩
  have hp := List.find?_some h
  simpa using hp

theorem find?_unique {α : Type} {p : α → Bool} {l : List α} {e : α}
    (hmem : e ∈ l) (hp : p e = true)
    (huniq : ∀ f ∈ l, p f = true → f = e) : l.find? p = some e := by
  cases hx : l.find? p with
  | none =>
    rw [List.find?_eq_none] at hx
    exact absurd hp (hx e hmem)
  | some f =>
    have hp : p f = true := by
      have := List.find?_some hx
      simpa using this
    rw [huniq f (List.mem_of_find?_eq_some hx) hp]

theorem removed_context {l1 l2 : List (BoundPair I × V)}
    {ent : BoundPair I × V}
    (hP : (l1 ++ ent :: l2).Pairwise entR)
    (hV : ∀ f ∈ l1 ++ ent :: l2, validB f.1 = true) :
    (l1 ++ l2).Pairwise entR ∧ (∀ f ∈ l1 ++ l2, validB f.1 = true) ∧
      ∀ f ∈ l1 ++ l2, helpers.overlaps f.1 ent.1 = false := by
  rw [List.pairwise_append] at hP
  obtain ⟨hP1, hPc, hcross⟩ := hP
  rw [List.pairwise_cons] at hPc
  obtain ⟨hent, hP2⟩ := hPc
  refine ⟨?_, ?_, ?_⟩
  · rw [List.pairwise_append]
    exact ⟨hP1, hP2,
      fun a ha b hb => hcross a ha b (List.mem_cons_of_mem _ hb)⟩
  · intro f hf
    rcases List.mem_append.mp hf with hf | hf
    · exact hV f (List.mem_append_left _ hf)
    · exact hV f (List.mem_append_right _ (List.mem_cons_of_mem _ hf))
  · intro f hf
    rcases List.mem_append.mp hf with hf | hf
    · exact (hcross f hf ent (List.mem_cons_self _ _)).2
    · rw [ov_symm]
      exact (hent f hf).2

theorem storeRemove_inv {l : List (BoundPair I × V)} {x : BoundOrd I}
    (hP : l.Pairwise entR) (hV : ∀ f ∈ l, validB f.1 = true) :
    (storeRemove l x).2.Pairwise entR ∧
      (∀ f ∈ (storeRemove l x).2, validB f.1 = true) ∧
      (∀ f ∈ (storeRemove l x).2, f ∈ l) ∧
      (∀ ent, (storeRemove l x).1 = some ent →
        ∀ f ∈ (storeRemove l x).2, helpers.overlaps f.1 ent.1 = false) ∧
      ∀ ent g, (storeRemove l x).1 = some ent → g ∈ l → g ≠ ent →
        g ∈ (storeRemove l x).2 := by
  cases hx : (storeRemove l x).1 with
  | none =>
    rw [storeRemove_none_snd hx]
    refine ⟨hP, hV, fun f hf => hf, ?_, ?_⟩
    · intro ent hent
      cases hent
    · intro ent g hent
      cases hent
  | some ent =>
    obtain ⟨l1, l2, hdec, hsnd, _⟩ := storeRemove_decomp hx
    rw [hsnd]
    rw [hdec] at hP hV
    obtain ⟨hp', hv', hov'⟩ := removed_context hP hV
    refine ⟨hp', hv', ?_, ?_, ?_⟩
    · intro f hf
      rw [hdec]
      rcases List.mem_append.mp hf with hf | hf
      · exact List.mem_append_left _ hf
      · exact List.mem_append_right _ (List.mem_cons_of_mem _ hf)
    · intro ent' hent' f hf
      obtain rfl := Option.some_inj.mp hent'
      exact hov' f hf
    · intro ent' g hent' hg hne
      obtain rfl := Option.some_inj.mp hent'
      rw [hdec] at hg
      rcases List.mem_append.mp hg with hg | hg
      · exact List.mem_append_left _ hg
      · rcases List.mem_cons.mp hg with hg | hg
        · exact absurd hg hne
        · exact List.mem_append_right _ hg

theorem insert_piece_inv {T b : BoundPair I} {v : V}
    {l : List (BoundPair I × V)}
    (hP : l.Pairwise entR) (hV : ∀ f ∈ l, validB f.1 = true)
    (hNov : ∀ f ∈ l, helpers.overlaps f.1 T = false)
    (hvb : validB b = true)
    (hsub1 : BoundOrd.lt (BoundOrd.start b.1) (BoundOrd.start T.1) = false)
    (hsub2 : BoundOrd.lt (BoundOrd.endo T.2) (BoundOrd.endo b.2) = false) :
    (storeInsert (b, v) l).Pairwise entR ∧
      ∀ f ∈ storeInsert (b, v) l, validB f.1 = true :=
  storeInsert_inv hP hV hvb (fun f hfl => by
    rw [ov_symm]
    exact ov_not_mono hsub1 hsub2 (hNov f hfl))

theorem cut_range_before_some {t c b : BoundPair I}
    (h : (helpers.cut_range t c).before_cut = some b) :
    BoundOrd.lt (BoundOrd.start t.1) (BoundOrd.start c.1) = true ∧
      b = (t.1, helpers.flipStart c.1) := by
  by_cases hc : BoundOrd.lt (BoundOrd.start t.1) (BoundOrd.start c.1) = true
  · refine ⟨hc, ?_⟩
    have hx : (helpers.cut_range t c).before_cut =
        some (t.1, helpers.flipStart c.1) := by
      unfold helpers.cut_range
      simp [hc]
    rw [hx] at h
    exact (Option.some_inj.mp h).symm
  · exfalso
    have hx : (helpers.cut_range t c).before_cut = none := by
      unfold helpers.cut_range
      simp [bool_eq_false hc]
    rw [hx] at h
    cases h

theorem cut_range_after_some {t c a : BoundPair I}
    (h : (helpers.cut_range t c).after_cut = some a) :
    BoundOrd.lt (BoundOrd.endo c.2) (BoundOrd.endo t.2) = true ∧
      a = (helpers.flipEnd c.2, t.2) := by
  by_cases hc : BoundOrd.lt (BoundOrd.endo c.2) (BoundOrd.endo t.2) = true
  · refine ⟨hc, ?_⟩
    have hx : (helpers.cut_range t c).after_cut =
        some (helpers.flipEnd c.2, t.2) := by
      unfold helpers.cut_range
      simp [hc]
    rw [hx] at h
    exact (Option.some_inj.mp h).symm
  · exfalso
    have hx : (helpers.cut_range t c).after_cut = none := by
      unfold helpers.cut_range
      simp [bool_eq_false hc]
    rw [hx] at h
    cases h

end CutLemmas

section CutErrorLemmas

variable {I V : Type} [LinearOrder I]

theorem cut_single_error_unchanged [Inhabited V] {tfb : Tfb I}
    {m : RangeBoundsMap I V} {q L : BoundPair I} {e : TryFromBoundsError}
    (h : (RangeBoundsMap.cut_single_overlapping tfb m q L).1 =
      Except.error e) :
    (RangeBoundsMap.cut_single_overlapping tfb m q L).2 = m := by
  simp only [RangeBoundsMap.cut_single_overlapping] at h ⊢
  cases h1 : RangeBoundsMap.liftTfb tfb (helpers.cut_range L q).before_cut with
  | error e1 =>
    cases h2 : RangeBoundsMap.liftTfb tfb (helpers.cut_range L q).after_cut with
    | error e2 => rfl
    | ok ra => rfl
  | ok rb =>
    cases h2 : RangeBoundsMap.liftTfb tfb (helpers.cut_range L q).after_cut with
    | error e2 => rfl
    | ok ra =>
      rw [h1, h2] at h
      simp at h

theorem cut_non_single_error_unchanged [Inhabited V] {tfb : Tfb I}
    {m : RangeBoundsMap I V} {q : BoundPair I}
    {lo ro : Option (BoundPair I)} {e : TryFromBoundsError}
    (h : (RangeBoundsMap.cut_non_single_overlapping tfb m q lo ro).1 =
      Except.error e) :
    (RangeBoundsMap.cut_non_single_overlapping tfb m q lo ro).2 = m := by
  simp only [RangeBoundsMap.cut_non_single_overlapping] at h ⊢
  cases lo with
  | none =>
    cases ro with
    | none => simp at h
    | some r =>
      dsimp only at h ⊢
      cases h2 : RangeBoundsMap.liftTfb tfb (helpers.cut_range r q).after_cut
        with
      | error e2 => rfl
      | ok ra =>
        rw [h2] at h
        simp at h
  | some l' =>
    cases ro with
    | none =>
      dsimp only at h ⊢
      cases h1 : RangeBoundsMap.liftTfb tfb
          (helpers.cut_range l' q).before_cut with
      | error e1 => rfl
      | ok rb =>
        rw [h1] at h
        simp at h
    | some r =>
      dsimp only at h ⊢
      cases h1 : RangeBoundsMap.liftTfb tfb
          (helpers.cut_range l' q).before_cut with
      | error e1 =>
        cases h2 : RangeBoundsMap.liftTfb tfb (helpers.cut_range r q).after_cut
          with
        | error e2 => rfl
        | ok ra => rfl
      | ok rb =>
        cases h2 : RangeBoundsMap.liftTfb tfb (helpers.cut_range r q).after_cut
          with
        | error e2 => rfl
        | ok ra =>
          rw [h1, h2] at h
          simp at h

theorem cut_error_unchanged [DecidableEq I] [Inhabited V] {tfb : Tfb I}
    {m : RangeBoundsMap I V} {q : BoundPair I} {e : TryFromBoundsError}
    (h : (RangeBoundsMap.cut tfb m q).1 = Except.error e) :
    (RangeBoundsMap.cut tfb m q).2 = m := by
  simp only [RangeBoundsMap.cut] at h ⊢
  cases hL : storeGet m.inner (BoundOrd.start q.1) with
  | none =>
    cases hR : storeGet m.inner (BoundOrd.endo q.2) with
    | none =>
      rw [hL, hR] at h
      exact cut_non_single_error_unchanged h
    | some rent =>
      rw [hL, hR] at h
      exact cut_non_single_error_unchanged h
  | some lent =>
    cases hR : storeGet m.inner (BoundOrd.endo q.2) with
    | none =>
      rw [hL, hR] at h
      exact cut_non_single_error_unchanged h
    | some rent =>
      rw [hL, hR] at h
      dsimp only [Option.map] at h ⊢
      by_cases he : lent.1.1 = rent.1.1
      · rw [if_pos he] at h
        rw [if_pos he]
        exact cut_single_error_unchanged h
      · rw [if_neg he] at h
        rw [if_neg he]
        exact cut_non_single_error_unchanged h

end CutErrorLemmas

section CutInvLemmas

variable {I V : Type} [LinearOrder I]

theorem insert_strict_inv {m : RangeBoundsMap I V} {k : BoundPair I} {v : V}
    (hm : Inv m) (hk : validB k = true) : Inv (m.insert_strict k v).2 := by
  obtain ⟨hP, hV⟩ := hm
  unfold RangeBoundsMap.insert_strict
  by_cases h : m.overlaps k = true
  · rw [if_pos h]
    exact ⟨hP, hV⟩
  · rw [if_neg h]
    have hno := overlaps_false_iff.mp (bool_eq_false h)
    have hres := storeInsert_inv (e := (k, v)) hP hV hk
      (fun f hfm => by rw [ov_symm]; exact hno f hfm)
    exact ⟨hres.1, hres.2⟩

theorem remove_overlapping_inv {m : RangeBoundsMap I V} {q : BoundPair I}
    (hm : Inv m) : Inv (m.remove_overlapping q).2 := by
  obtain ⟨hP, hV⟩ := hm
  refine ⟨?_, ?_⟩
  · exact List.Pairwise.sublist (List.filter_sublist _) hP
  · intro f hfm
    exact hV f (List.mem_of_mem_filter hfm)

theorem cut_single_spec [Inhabited V] {tfb : Tfb I} (hf : TfbFaithful tfb)
    {m : RangeBoundsMap I V} {q L : BoundPair I} {Lv : V}
    (hm : Inv m) (hq : validB q = true)
    (hgetL : storeGet m.inner (BoundOrd.start q.1) = some (L, Lv))
    (hx2 : (helpers.cmp_range_with_bound_ord L (BoundOrd.endo q.2) ==
      Ordering.eq) = true) :
    Inv (RangeBoundsMap.cut_single_overlapping tfb m q L).2 ∧
      ∀ r, (RangeBoundsMap.cut_single_overlapping tfb m q L).1 =
          Except.ok r →
        ∀ f ∈ (RangeBoundsMap.cut_single_overlapping tfb m q L).2.inner,
          helpers.overlaps f.1 q = false := by
  obtain ⟨hmP, hmV⟩ := hm
  have hc1 : (helpers.cmp_range_with_bound_ord L (BoundOrd.start q.1) ==
      Ordering.eq) = true := (storeGet_some hgetL).2
  obtain ⟨hked1, hks1⟩ := cmp_eq_iff.mp hc1
  obtain ⟨hked2, hks2⟩ := cmp_eq_iff.mp hx2
  have hvq : BoundOrd.lt (BoundOrd.endo q.2) (BoundOrd.start q.1) = false := by
    unfold validB at hq
    rwa [Bool.not_eq_true'] at hq
  have hrm1 : (storeRemove m.inner (BoundOrd.start q.1)).1 = some (L, Lv) := by
    rw [storeRemove_fst]
    exact hgetL
  obtain ⟨l1, l2, hdec, hrm2, _⟩ := storeRemove_decomp hrm1
  have hP0 : (l1 ++ (L, Lv) :: l2).Pairwise entR := by
    rw [← hdec]
    exact hmP
  have hV0 : ∀ f ∈ l1 ++ (L, Lv) :: l2, validB f.1 = true := by
    rw [← hdec]
    exact hmV
  obtain ⟨hP1, hV1, hNov⟩ := removed_context hP0 hV0
  have hNovq : ∀ f ∈ l1 ++ l2, helpers.overlaps f.1 q = false :=
    fun f hfm => ov_not_mono hks1 hked2 (hNov f hfm)
  simp only [RangeBoundsMap.cut_single_overlapping]
  cases h1 : RangeBoundsMap.liftTfb tfb (helpers.cut_range L q).before_cut with
  | error e1 =>
    cases h2 : RangeBoundsMap.liftTfb tfb (helpers.cut_range L q).after_cut
      with
    | error e2 =>
      refine ⟨⟨hmP, hmV⟩, ?_⟩
      intro r hr
      simp at hr
    | ok ra =>
      refine ⟨⟨hmP, hmV⟩, ?_⟩
      intro r hr
      simp at hr
  | ok rb =>
    cases h2 : RangeBoundsMap.liftTfb tfb (helpers.cut_range L q).after_cut
      with
    | error e2 =>
      refine ⟨⟨hmP, hmV⟩, ?_⟩
      intro r hr
      simp at hr
    | ok ra =>
      obtain rfl := liftTfb_ok hf h1
      obtain rfl := liftTfb_ok hf h2
      dsimp only
      rw [hrm1, hrm2]
      simp only [Option.map_some', Option.getD_some]
      cases hbc : (helpers.cut_range L q).before_cut with
      | none =>
        cases hac : (helpers.cut_range L q).after_cut with
        | none =>
          refine ⟨⟨hP1, hV1⟩, ?_⟩
          intro r _ f hfm
          exact hNovq f hfm
        | some a =>
          obtain ⟨hpres2, ha⟩ := cut_range_after_some hac
          subst ha
          have hva : validB ((helpers.flipEnd q.2, L.2) : BoundPair I) =
              true := by
            unfold validB
            rw [Bool.not_eq_true']
            exact flip_end_le hpres2
          have hsA1 : BoundOrd.lt (BoundOrd.start (helpers.flipEnd q.2))
              (BoundOrd.start L.1) = false :=
            boLt_asymm (boLt_of_le_of_lt hks1
              (boLt_of_le_of_lt hvq (flip_end_gt_self hpres2)))
          have hsA2 : BoundOrd.lt (BoundOrd.endo L.2) (BoundOrd.endo L.2) =
              false := boLt_irrefl _
          have hres := storeInsert_inv
            (e := ((helpers.flipEnd q.2, L.2), Lv)) hP1 hV1 hva
            (fun f hfm => by
              rw [ov_symm]
              exact ov_not_mono hsA1 hsA2 (hNov f hfm))
          refine ⟨⟨hres.1, hres.2⟩, ?_⟩
          intro r _ f hfm
          rcases mem_storeInsert hfm with rfl | hfm
          · exact ov_eq_false_iff.mpr (Or.inr (flip_end_gt_self hpres2))
          · exact hNovq f hfm
      | some b =>
        obtain ⟨hpres1, hb⟩ := cut_range_before_some hbc
        subst hb
        have hvb : validB ((L.1, helpers.flipStart q.1) : BoundPair I) =
            true := by
          unfold validB
          rw [Bool.not_eq_true']
          exact flip_start_ge hpres1
        have hsB1 : BoundOrd.lt (BoundOrd.start L.1) (BoundOrd.start L.1) =
            false := boLt_irrefl _
        have hsB2 : BoundOrd.lt (BoundOrd.endo L.2)
            (BoundOrd.endo (helpers.flipStart q.1)) = false :=
          boLt_asymm (boLt_of_lt_of_le (flip_start_lt_self hpres1) hked1)
        have hresB := insert_piece_inv (T := L)
          (b := (L.1, helpers.flipStart q.1)) (v := Lv)
          hP1 hV1 hNov hvb hsB1 hsB2
        have hmemB : ∀ f ∈ storeInsert ((L.1, helpers.flipStart q.1), Lv)
            (l1 ++ l2), f = ((L.1, helpers.flipStart q.1), Lv) ∨
              f ∈ l1 ++ l2 := fun f hfm => mem_storeInsert hfm
        cases hac : (helpers.cut_range L q).after_cut with
        | none =>
          refine ⟨⟨hresB.1, hresB.2⟩, ?_⟩
          intro r _ f hfm
          rcases hmemB f hfm with rfl | hfm
          · exact ov_eq_false_iff.mpr (Or.inl (flip_start_lt_self hpres1))
          · exact hNovq f hfm
        | some a =>
          obtain ⟨hpres2, ha⟩ := cut_range_after_some hac
          subst ha
          have hva : validB ((helpers.flipEnd q.2, L.2) : BoundPair I) =
              true := by
            unfold validB
            rw [Bool.not_eq_true']
            exact flip_end_le hpres2
          have hsA1 : BoundOrd.lt (BoundOrd.start (helpers.flipEnd q.2))
              (BoundOrd.start L.1) = false :=
            boLt_asymm (boLt_of_le_of_lt hks1
              (boLt_of_le_of_lt hvq (flip_end_gt_self hpres2)))
          have hsA2 : BoundOrd.lt (BoundOrd.endo L.2) (BoundOrd.endo L.2) =
              false := boLt_irrefl _
          have hovAB : helpers.overlaps (helpers.flipEnd q.2, L.2)
              (L.1, helpers.flipStart q.1) = false :=
            ov_eq_false_iff.mpr
              (Or.inr (flip_sep hpres1 hpres2 hvq))
          have hresA := storeInsert_inv
            (e := ((helpers.flipEnd q.2, L.2), Lv)) hresB.1 hresB.2 hva
            (fun f hfm => by
              rcases hmemB f hfm with rfl | hfm
              · exact hovAB
              · rw [ov_symm]
                exact ov_not_mono hsA1 hsA2 (hNov f hfm))
          refine ⟨⟨hresA.1, hresA.2⟩, ?_⟩
          intro r _ f hfm
          rcases mem_storeInsert hfm with rfl | hfm
          · exact ov_eq_false_iff.mpr (Or.inr (flip_end_gt_self hpres2))
          rcases hmemB f hfm with rfl | hfm
          · exact ov_eq_false_iff.mpr (Or.inl (flip_start_lt_self hpres1))
          · exact hNovq f hfm


theorem cut_non_single_spec [Inhabited V] {tfb : Tfb I} (hf : TfbFaithful tfb)
    {m : RangeBoundsMap I V} {q : BoundPair I}
    {lo ro : Option (BoundPair I)}
    (hm : Inv m) (hq : validB q = true)
    (hlo : lo = (storeGet m.inner (BoundOrd.start q.1)).map Prod.fst)
    (hro : ro = (storeGet m.inner (BoundOrd.endo q.2)).map Prod.fst)
    (hne : ∀ Lk Rk, lo = some Lk → ro = some Rk → Lk.1 ≠ Rk.1) :
    Inv (RangeBoundsMap.cut_non_single_overlapping tfb m q lo ro).2 ∧
      ∀ r, (RangeBoundsMap.cut_non_single_overlapping tfb m q lo ro).1 =
          Except.ok r →
        ∀ f ∈ (RangeBoundsMap.cut_non_single_overlapping tfb m q
            lo ro).2.inner,
          helpers.overlaps f.1 q = false := by
  obtain ⟨hmP, hmV⟩ := hm
  have hvq : BoundOrd.lt (BoundOrd.endo q.2) (BoundOrd.start q.1) = false := by
    unfold validB at hq
    rwa [Bool.not_eq_true'] at hq
  have hclears : ∀ (l3 : List (BoundPair I × V)) (f : BoundPair I × V),
      f ∈ l3.filter (fun e => !(helpers.overlaps e.1 q)) →
        helpers.overlaps f.1 q = false := by
    intro l3 f hfm
    have hx := (List.mem_filter.mp hfm).2
    rwa [Bool.not_eq_true'] at hx
  obtain ⟨hP1, hV1, hM1, hO1, hK1⟩ :=
    storeRemove_inv (l := m.inner) (x := BoundOrd.start q.1) hmP hmV
  obtain ⟨hP2, hV2, hM2, hO2, hK2⟩ :=
    storeRemove_inv (l := (storeRemove m.inner (BoundOrd.start q.1)).2)
      (x := BoundOrd.endo q.2) hP1 hV1
  have hrm1fst : (storeRemove m.inner (BoundOrd.start q.1)).1 =
      storeGet m.inner (BoundOrd.start q.1) := storeRemove_fst _ _
  subst hlo
  subst hro
  simp only [RangeBoundsMap.cut_non_single_overlapping]
  cases hL : storeGet m.inner (BoundOrd.start q.1) with
  | none =>
    have hrm1none : (storeRemove m.inner (BoundOrd.start q.1)).1 = none := by
      rw [hrm1fst, hL]
    have hrm1snd := storeRemove_none_snd hrm1none
    cases hR : storeGet m.inner (BoundOrd.endo q.2) with
    | none =>
      dsimp only [Option.map]
      refine ⟨⟨List.Pairwise.sublist (List.filter_sublist _) hP2,
        fun f hfm => hV2 f (List.mem_of_mem_filter hfm)⟩, ?_⟩
      intro r _ f hfm
      exact hclears _ f hfm
    | some Rent =>
      dsimp only [Option.map]
      have hc2 : (helpers.cmp_range_with_bound_ord Rent.1
          (BoundOrd.endo q.2) == Ordering.eq) = true := (storeGet_some hR).2
      obtain ⟨hked2R, hks2R⟩ := cmp_eq_iff.mp hc2
      have hrm2fst : (storeRemove (storeRemove m.inner
          (BoundOrd.start q.1)).2 (BoundOrd.endo q.2)).1 = some Rent := by
        rw [storeRemove_fst, hrm1snd]
        exact hR
      have hOR := hO2 Rent hrm2fst
      cases h2 : RangeBoundsMap.liftTfb tfb
          (helpers.cut_range Rent.1 q).after_cut with
      | error e2 =>
        refine ⟨⟨hmP, hmV⟩, ?_⟩
        intro r hr
        simp at hr
      | ok ra =>
        obtain rfl := liftTfb_ok hf h2
        dsimp only
        cases hac : (helpers.cut_range Rent.1 q).after_cut with
        | none =>
          refine ⟨⟨List.Pairwise.sublist (List.filter_sublist _) hP2,
            fun f hfm => hV2 f (List.mem_of_mem_filter hfm)⟩, ?_⟩
          intro r _ f hfm
          exact hclears _ f hfm
        | some a =>
          obtain ⟨hpres2, ha⟩ := cut_range_after_some hac
          subst ha
          have hva : validB ((helpers.flipEnd q.2, Rent.1.2) :
              BoundPair I) = true := by
            unfold validB
            rw [Bool.not_eq_true']
            exact flip_end_le hpres2
          have hsA1 : BoundOrd.lt (BoundOrd.start (helpers.flipEnd q.2))
              (BoundOrd.start Rent.1.1) = false :=
            boLt_asymm (boLt_of_le_of_lt hks2R (flip_end_gt_self hpres2))
          have hsA2 : BoundOrd.lt (BoundOrd.endo Rent.1.2)
              (BoundOrd.endo Rent.1.2) = false := boLt_irrefl _
          have hres := storeInsert_inv
            (e := ((helpers.flipEnd q.2, Rent.1.2),
              (Option.map Prod.snd (storeRemove (storeRemove m.inner
                (BoundOrd.start q.1)).2 (BoundOrd.endo q.2)).1).getD default))
            hP2 hV2 hva
            (fun f hfm => by
              rw [ov_symm]
              exact ov_not_mono hsA1 hsA2 (hOR f hfm))
          refine ⟨⟨List.Pairwise.sublist (List.filter_sublist _) hres.1,
            fun f hfm => hres.2 f (List.mem_of_mem_filter hfm)⟩, ?_⟩
          intro r _ f hfm
          exact hclears _ f hfm
  | some Lent =>
    have hrm1some : (storeRemove m.inner (BoundOrd.start q.1)).1 =
        some Lent := by
      rw [hrm1fst, hL]
    have hc1 : (helpers.cmp_range_with_bound_ord Lent.1
        (BoundOrd.start q.1) == Ordering.eq) = true := (storeGet_some hL).2
    obtain ⟨hked1L, hks1L⟩ := cmp_eq_iff.mp hc1
    have hOL := hO1 Lent hrm1some
    have hOL2 : ∀ f ∈ (storeRemove (storeRemove m.inner
        (BoundOrd.start q.1)).2 (BoundOrd.endo q.2)).2,
        helpers.overlaps f.1 Lent.1 = false :=
      fun f hfm => hOL f (hM2 f hfm)
    cases hR : storeGet m.inner (BoundOrd.endo q.2) with
    | none =>
      dsimp only [Option.map]
      have hrm2none : (storeRemove (storeRemove m.inner
          (BoundOrd.start q.1)).2 (BoundOrd.endo q.2)).1 = none := by
        rw [storeRemove_fst]
        rw [List.find?_eq_none]
        intro g hg hpg
        have hgm : g ∈ m.inner := hM1 g hg
        have : storeGet m.inner (BoundOrd.endo q.2) ≠ none := by
          intro hnone
          unfold storeGet at hnone
          rw [List.find?_eq_none] at hnone
          exact hnone g hgm hpg
        exact this hR
      cases h1 : RangeBoundsMap.liftTfb tfb
          (helpers.cut_range Lent.1 q).before_cut with
      | error e1 =>
        refine ⟨⟨hmP, hmV⟩, ?_⟩
        intro r hr
        simp at hr
      | ok rb =>
        obtain rfl := liftTfb_ok hf h1
        dsimp only
        cases hbc : (helpers.cut_range Lent.1 q).before_cut with
        | none =>
          refine ⟨⟨List.Pairwise.sublist (List.filter_sublist _) hP2,
            fun f hfm => hV2 f (List.mem_of_mem_filter hfm)⟩, ?_⟩
          intro r _ f hfm
          exact hclears _ f hfm
        | some b =>
          obtain ⟨hpres1, hb⟩ := cut_range_before_some hbc
          subst hb
          have hvb : validB ((Lent.1.1, helpers.flipStart q.1) :
              BoundPair I) = true := by
            unfold validB
            rw [Bool.not_eq_true']
            exact flip_start_ge hpres1
          have hsB1 : BoundOrd.lt (BoundOrd.start Lent.1.1)
              (BoundOrd.start Lent.1.1) = false := boLt_irrefl _
          have hsB2 : BoundOrd.lt (BoundOrd.endo Lent.1.2)
              (BoundOrd.endo (helpers.flipStart q.1)) = false :=
            boLt_asymm (boLt_of_lt_of_le (flip_start_lt_self hpres1) hked1L)
          have hres := storeInsert_inv
            (e := ((Lent.1.1, helpers.flipStart q.1),
              (Option.map Prod.snd (storeRemove m.inner
                (BoundOrd.start q.1)).1).getD default))
            hP2 hV2 hvb
            (fun f hfm => by
              rw [ov_symm]
              exact ov_not_mono hsB1 hsB2 (hOL2 f hfm))
          refine ⟨⟨List.Pairwise.sublist (List.filter_sublist _) hres.1,
            fun f hfm => hres.2 f (List.mem_of_mem_filter hfm)⟩, ?_⟩
          intro r _ f hfm
          exact hclears _ f hfm
    | some Rent =>
      dsimp only [Option.map]
      rw [hL, hR] at hne
      have hneLR : Lent.1.1 ≠ Rent.1.1 := hne Lent.1 Rent.1 rfl rfl
      have hneqEnt : Rent ≠ Lent := fun heq =>
        hneLR (congrArg (fun z => z.1.1) heq).symm
      have hc2 : (helpers.cmp_range_with_bound_ord Rent.1
          (BoundOrd.endo q.2) == Ordering.eq) = true := (storeGet_some hR).2
      obtain ⟨hked2R, hks2R⟩ := cmp_eq_iff.mp hc2
      have hmemR1 : Rent ∈ (storeRemove m.inner (BoundOrd.start q.1)).2 :=
        hK1 Lent Rent hrm1some (storeGet_some hR).1 hneqEnt
      have hrm2fst : (storeRemove (storeRemove m.inner
          (BoundOrd.start q.1)).2 (BoundOrd.endo q.2)).1 = some Rent := by
        rw [storeRemove_fst]
        refine find?_unique hmemR1 hc2 ?_
        intro g hg hpg
        exact pairwise_unique_overlap hmP (hM1 g hg) (storeGet_some hR).1
          (contains_contains_overlap hpg hc2)
      have hOR := hO2 Rent hrm2fst
      cases h1 : RangeBoundsMap.liftTfb tfb
          (helpers.cut_range Lent.1 q).before_cut with
      | error e1 =>
        cases h2 : RangeBoundsMap.liftTfb tfb
            (helpers.cut_range Rent.1 q).after_cut with
        | error e2 =>
          refine ⟨⟨hmP, hmV⟩, ?_⟩
          intro r hr
          simp at hr
        | ok ra =>
          refine ⟨⟨hmP, hmV⟩, ?_⟩
          intro r hr
          simp at hr
      | ok rb =>
        obtain rfl := liftTfb_ok hf h1
        cases h2 : RangeBoundsMap.liftTfb tfb
            (helpers.cut_range Rent.1 q).after_cut with
        | error e2 =>
          refine ⟨⟨hmP, hmV⟩, ?_⟩
          intro r hr
          simp at hr
        | ok ra =>
          obtain rfl := liftTfb_ok hf h2
          dsimp only
          cases hbc : (helpers.cut_range Lent.1 q).before_cut with
          | none =>
            cases hac : (helpers.cut_range Rent.1 q).after_cut with
            | none =>
              refine ⟨⟨List.Pairwise.sublist (List.filter_sublist _) hP2,
                fun f hfm => hV2 f (List.mem_of_mem_filter hfm)⟩, ?_⟩
              intro r _ f hfm
              exact hclears _ f hfm
            | some a =>
              obtain ⟨hpres2, ha⟩ := cut_range_after_some hac
              subst ha
              have hva : validB ((helpers.flipEnd q.2, Rent.1.2) :
                  BoundPair I) = true := by
                unfold validB
                rw [Bool.not_eq_true']
                exact flip_end_le hpres2
              have hsA1 : BoundOrd.lt (BoundOrd.start (helpers.flipEnd q.2))
                  (BoundOrd.start Rent.1.1) = false :=
                boLt_asymm (boLt_of_le_of_lt hks2R (flip_end_gt_self hpres2))
              have hsA2 : BoundOrd.lt (BoundOrd.endo Rent.1.2)
                  (BoundOrd.endo Rent.1.2) = false := boLt_irrefl _
              have hres := storeInsert_inv
                (e := ((helpers.flipEnd q.2, Rent.1.2),
                  (Option.map Prod.snd (storeRemove (storeRemove m.inner
                    (BoundOrd.start q.1)).2
                    (BoundOrd.endo q.2)).1).getD default))
                hP2 hV2 hva
                (fun f hfm => by
                  rw [ov_symm]
                  exact ov_not_mono hsA1 hsA2 (hOR f hfm))
              refine ⟨⟨List.Pairwise.sublist (List.filter_sublist _) hres.1,
                fun f hfm => hres.2 f (List.mem_of_mem_filter hfm)⟩, ?_⟩
              intro r _ f hfm
              exact hclears _ f hfm
          | some b =>
            obtain ⟨hpres1, hb⟩ := cut_range_before_some hbc
            subst hb
            have hvb : validB ((Lent.1.1, helpers.flipStart q.1) :
                BoundPair I) = true := by
              unfold validB
              rw [Bool.not_eq_true']
              exact flip_start_ge hpres1
            have hsB1 : BoundOrd.lt (BoundOrd.start Lent.1.1)
                (BoundOrd.start Lent.1.1) = false := boLt_irrefl _
            have hsB2 : BoundOrd.lt (BoundOrd.endo Lent.1.2)
                (BoundOrd.endo (helpers.flipStart q.1)) = false :=
              boLt_asymm (boLt_of_lt_of_le (flip_start_lt_self hpres1)
                hked1L)
            have hresB := storeInsert_inv
              (e := ((Lent.1.1, helpers.flipStart q.1),
                (Option.map Prod.snd (storeRemove m.inner
                  (BoundOrd.start q.1)).1).getD default))
              hP2 hV2 hvb
              (fun f hfm => by
                rw [ov_symm]
                exact ov_not_mono hsB1 hsB2 (hOL2 f hfm))
            cases hac : (helpers.cut_range Rent.1 q).after_cut with
            | none =>
              refine ⟨⟨List.Pairwise.sublist (List.filter_sublist _)
                hresB.1,
                fun f hfm => hresB.2 f (List.mem_of_mem_filter hfm)⟩, ?_⟩
              intro r _ f hfm
              exact hclears _ f hfm
            | some a =>
              obtain ⟨hpres2, ha⟩ := cut_range_after_some hac
              subst ha
              have hva : validB ((helpers.flipEnd q.2, Rent.1.2) :
                  BoundPair I) = true := by
                unfold validB
                rw [Bool.not_eq_true']
                exact flip_end_le hpres2
              have hsA1 : BoundOrd.lt (BoundOrd.start (helpers.flipEnd q.2))
                  (BoundOrd.start Rent.1.1) = false :=
                boLt_asymm (boLt_of_le_of_lt hks2R (flip_end_gt_self hpres2))
              have hsA2 : BoundOrd.lt (BoundOrd.endo Rent.1.2)
                  (BoundOrd.endo Rent.1.2) = false := boLt_irrefl _
              have hovAB : helpers.overlaps (helpers.flipEnd q.2, Rent.1.2)
                  (Lent.1.1, helpers.flipStart q.1) = false :=
                ov_eq_false_iff.mpr (Or.inr (flip_sep hpres1 hpres2 hvq))
              have hresA := storeInsert_inv
                (e := ((helpers.flipEnd q.2, Rent.1.2),
                  (Option.map Prod.snd (storeRemove (storeRemove m.inner
                    (BoundOrd.start q.1)).2
                    (BoundOrd.endo q.2)).1).getD default))
                hresB.1 hresB.2 hva
                (fun f hfm => by
                  rcases mem_storeInsert hfm with rfl | hfm
                  · exact hovAB
                  · rw [ov_symm]
                    exact ov_not_mono hsA1 hsA2 (hOR f hfm))
              refine ⟨⟨List.Pairwise.sublist (List.filter_sublist _)
                hresA.1,
                fun f hfm => hresA.2 f (List.mem_of_mem_filter hfm)⟩, ?_⟩
              intro r _ f hfm
              exact hclears _ f hfm


theorem cut_spec [DecidableEq I] [Inhabited V] {tfb : Tfb I}
    (hf : TfbFaithful tfb) {m : RangeBoundsMap I V} {q : BoundPair I}
    (hm : Inv m) (hq : validB q = true) :
    Inv (RangeBoundsMap.cut tfb m q).2 ∧
      ∀ r, (RangeBoundsMap.cut tfb m q).1 = Except.ok r →
        ∀ f ∈ (RangeBoundsMap.cut tfb m q).2.inner,
          helpers.overlaps f.1 q = false := by
  simp only [RangeBoundsMap.cut]
  cases hL : storeGet m.inner (BoundOrd.start q.1) with
  | none =>
    cases hR : storeGet m.inner (BoundOrd.endo q.2) with
    | none =>
      dsimp only [Option.map]
      exact cut_non_single_spec hf hm hq (by rw [hL]; rfl) (by rw [hR]; rfl)
        (fun Lk Rk hLk _ => by cases hLk)
    | some Rent =>
      dsimp only [Option.map]
      exact cut_non_single_spec hf hm hq (by rw [hL]; rfl) (by rw [hR]; rfl)
        (fun Lk Rk hLk _ => by cases hLk)
  | some Lent =>
    cases hR : storeGet m.inner (BoundOrd.endo q.2) with
    | none =>
      dsimp only [Option.map]
      exact cut_non_single_spec hf hm hq (by rw [hL]; rfl) (by rw [hR]; rfl)
        (fun Lk Rk _ hRk => by cases hRk)
    | some Rent =>
      dsimp only [Option.map]
      by_cases he : Lent.1.1 = Rent.1.1
      · rw [if_pos he]
        have hovLR : helpers.overlaps Lent.1 Rent.1 = true := by
          refine eq_start_overlap (hm.2 Lent (storeGet_some hL).1)
            (hm.2 Rent (storeGet_some hR).1) ?_ ?_
          · rw [he]
            exact boLt_irrefl _
          · rw [he]
            exact boLt_irrefl _
        have hEq : Lent = Rent := pairwise_unique_overlap hm.1
          (storeGet_some hL).1 (storeGet_some hR).1 hovLR
        have hx2 : (helpers.cmp_range_with_bound_ord Lent.1
            (BoundOrd.endo q.2) == Ordering.eq) = true := by
          rw [hEq]
          exact (storeGet_some hR).2
        exact cut_single_spec hf ⟨hm.1, hm.2⟩ hq hL hx2
      · rw [if_neg he]
        exact cut_non_single_spec hf hm hq (by rw [hL]; rfl) (by rw [hR]; rfl)
          (fun Lk Rk hLk hRk => by
            obtain rfl := Option.some_inj.mp hLk
            obtain rfl := Option.some_inj.mp hRk
            exact he)

theorem step_inv [DecidableEq I] [Inhabited V] {tfb : Tfb I}
    (hf : TfbFaithful tfb) {m m1 : RangeBoundsMap I V}
    (hm : Inv m) (hstep : Step tfb m m1) : Inv m1 := by
  cases hstep with
  | insert k v hk hok => exact insert_strict_inv hm hk
  | remove q hq => exact remove_overlapping_inv hm
  | cutStep q l hq hok => exact (cut_spec hf hm hq).1

theorem cut_then_insert_ok [DecidableEq I] [Inhabited V] {tfb : Tfb I}
    (hf : TfbFaithful tfb) {m : RangeBoundsMap I V} {q : BoundPair I}
    {r : List (BoundPair I × V)}
    (hm : Inv m) (hq : validB q = true)
    (hok : (RangeBoundsMap.cut tfb m q).1 = Except.ok r) (v : V) :
    (RangeBoundsMap.insert_strict (RangeBoundsMap.cut tfb m q).2 q v).1 =
      Except.ok () := by
  have hcl := (cut_spec hf hm hq).2 r hok
  have hovf : (RangeBoundsMap.cut tfb m q).2.overlaps q = false :=
    overlaps_false_iff.mpr hcl
  unfold RangeBoundsMap.insert_strict
  rw [if_neg (by simp [hovf])]

end CutInvLemmas

/-- C1: starting from any map satisfying the spec invariants (no two stored
ranges overlap, `iter()` ascending in start rank, stored ranges valid), any
sequence of successful mutating calls — `insert_strict`, `remove_overlapping`,
successful `cut` — re-establishes the invariants, for any faithful
`TryFromBounds` key type. -/
theorem mutation_steps_preserve_invariant {I V : Type} [LinearOrder I]
    [DecidableEq I] [Inhabited V] (tfb : Tfb I) (m m1 : RangeBoundsMap I V)
    (hf : TfbFaithful tfb) (hm : Inv m)
    (hsteps : Relation.ReflTransGen (Step tfb) m m1) : Inv m1 := by
  induction hsteps with
  | refl => exact hm
  | tail _ hstep ih => exact step_inv hf ih hstep

/-- Witness for C1: inserting `[5,10) -> 9` into the empty `Int` map is one
successful step, and the invariant holds afterwards. -/
theorem mutation_steps_preserve_invariant_witness :
    Inv (RangeBoundsMap.insert_strict
      (RangeBoundsMap.new : RangeBoundsMap Int Int)
      (Bound.included 5, Bound.excluded 10) 9).2 := by
  refine mutation_steps_preserve_invariant TryFromBounds.pair
    RangeBoundsMap.new _ (fun s e k h => (Option.some_inj.mp h).symm)
    ⟨List.Pairwise.nil, fun e he => absurd he (List.not_mem_nil e)⟩ ?_
  exact Relation.ReflTransGen.single
    (Step.insert RangeBoundsMap.new (Bound.included 5, Bound.excluded 10) 9
      (by decide) rfl)

/-- C9: `insert_overwrite(k, v)` is observably `cut(k)` followed by
`insert_strict(k, v)`: when a cut remainder is not reconstructible it returns
the same `TryFromBoundsError` with the map unmodified, and on success it
yields exactly the map produced by `insert_strict` on the post-cut state,
whose `OverlapError` case never fires because the cut cleared all coverage of
`k`. -/
theorem insert_overwrite_is_cut_then_insert_strict {I V : Type}
    [LinearOrder I] [DecidableEq I] [Inhabited V] (tfb : Tfb I)
    (m : RangeBoundsMap I V) (k : BoundPair I) (v : V)
    (hf : TfbFaithful tfb) (hm : Inv m) (hk : validB k = true) :
    (∀ e, (RangeBoundsMap.cut tfb m k).1 = Except.error e →
      RangeBoundsMap.insert_overwrite tfb m k v = (Except.error e, m)) ∧
    ∀ r, (RangeBoundsMap.cut tfb m k).1 = Except.ok r →
      RangeBoundsMap.insert_overwrite tfb m k v =
        (Except.ok (), (RangeBoundsMap.insert_strict
          (RangeBoundsMap.cut tfb m k).2 k v).2) ∧
      (RangeBoundsMap.insert_strict (RangeBoundsMap.cut tfb m k).2 k v).1 =
        Except.ok () := by
  constructor
  · intro e he
    have hcutEq : RangeBoundsMap.cut tfb m k = (Except.error e, m) :=
      Prod.ext he (cut_error_unchanged he)
    unfold RangeBoundsMap.insert_overwrite
    rw [hcutEq]
  · intro r hok
    have hcutEq : RangeBoundsMap.cut tfb m k =
        (Except.ok r, (RangeBoundsMap.cut tfb m k).2) := Prod.ext hok rfl
    refine ⟨?_, cut_then_insert_ok hf hm hk hok v⟩
    unfold RangeBoundsMap.insert_overwrite
    rw [hcutEq]

/-- Witness for C9: overwriting into the empty `Int` map goes through the
successful-cut path. -/
theorem insert_overwrite_is_cut_then_insert_strict_witness :
    RangeBoundsMap.insert_overwrite TryFromBounds.pair
        (RangeBoundsMap.new : RangeBoundsMap Int Int)
        (Bound.included 5, Bound.excluded 10) 9 =
      (Except.ok (), (RangeBoundsMap.insert_strict
        (RangeBoundsMap.cut TryFromBounds.pair RangeBoundsMap.new
          (Bound.included 5, Bound.excluded 10)).2
        (Bound.included 5, Bound.excluded 10) 9).2) :=
  ((insert_overwrite_is_cut_then_insert_strict TryFromBounds.pair
    RangeBoundsMap.new (Bound.included 5, Bound.excluded 10) 9
    (fun s e k h => (Option.some_inj.mp h).symm)
    ⟨List.Pairwise.nil, fun e he => absurd he (List.not_mem_nil e)⟩
    (by decide)).2 [] rfl).1

/-- C3: `cut(q)` is atomic on reconstruction failure — whenever it returns
`Err(TryFromBoundsError)` the map is left unmodified — and on scenario E
(map `{[2,8) -> true}` over half-open keys, cutter `4..=6`) it does return
`Err(TryFromBoundsError)` because the right remainder `(Excluded 6,
Excluded 8)` is not representable, leaving the map unchanged. -/
theorem cut_atomic_on_error :
    (∀ (I V : Type) [LinearOrder I] [DecidableEq I] [Inhabited V] (tfb : Tfb I)
      (m : RangeBoundsMap I V) (q : BoundPair I) (e : TryFromBoundsError),
      (RangeBoundsMap.cut tfb m q).1 = Except.error e →
        (RangeBoundsMap.cut tfb m q).2 = m) ∧
    (RangeBoundsMap.cut TryFromBounds.range exampleMapE
      (Bound.included 4, Bound.included 6)).1 =
      Except.error TryFromBoundsError.mk ∧
    (RangeBoundsMap.cut TryFromBounds.range exampleMapE
      (Bound.included 4, Bound.included 6)).2 = exampleMapE := by
  refine ⟨?_, rfl, rfl⟩
  intro I V _ _ _ tfb m q e h
  exact cut_error_unchanged h

section TfbPairLemmas

variable {I V : Type} [LinearOrder I]

theorem liftTfb_pair_ok (o : Option (BoundPair I)) :
    RangeBoundsMap.liftTfb TryFromBounds.pair o = Except.ok o := by
  cases o with
  | none => rfl
  | some p => rfl

theorem cut_single_pair_ok [Inhabited V] (m : RangeBoundsMap I V)
    (q L : BoundPair I) :
    ∃ l, (RangeBoundsMap.cut_single_overlapping TryFromBounds.pair m q L).1 =
      Except.ok l := by
  unfold RangeBoundsMap.cut_single_overlapping
  simp only [liftTfb_pair_ok]
  exact ⟨_, rfl⟩

theorem cut_non_single_pair_ok [Inhabited V] (m : RangeBoundsMap I V)
    (q : BoundPair I) (lo ro : Option (BoundPair I)) :
    ∃ l, (RangeBoundsMap.cut_non_single_overlapping TryFromBounds.pair m q
      lo ro).1 = Except.ok l := by
  unfold RangeBoundsMap.cut_non_single_overlapping
  cases lo <;> cases ro <;> simp only [liftTfb_pair_ok] <;> exact ⟨_, rfl⟩

theorem cut_pair_ok [DecidableEq I] [Inhabited V] (m : RangeBoundsMap I V)
    (q : BoundPair I) :
    ∃ l, (RangeBoundsMap.cut TryFromBounds.pair m q).1 = Except.ok l := by
  unfold RangeBoundsMap.cut
  cases hL : (storeGet m.inner (BoundOrd.start q.1)).map Prod.fst with
  | none =>
    cases hR : (storeGet m.inner (BoundOrd.endo q.2)).map Prod.fst with
    | none =>
      simp only [hL, hR]
      exact cut_non_single_pair_ok m q none none
    | some r =>
      simp only [hL, hR]
      exact cut_non_single_pair_ok m q none (some r)
  | some l' =>
    cases hR : (storeGet m.inner (BoundOrd.endo q.2)).map Prod.fst with
    | none =>
      simp only [hL, hR]
      exact cut_non_single_pair_ok m q (some l') none
    | some r =>
      simp only [hL, hR]
      by_cases he : l'.1 = r.1
      · simp only [he, if_true]
        exact cut_single_pair_ok m q l'
      · simp only [if_neg he]
        exact cut_non_single_pair_ok m q (some l') (some r)

end TfbPairLemmas

/-- C6: `overlaps(q)` is implemented as, and agrees with,
`overlapping(q).next().is_some()` (`range_bounds_map.rs`, lines 353-358): it is
true exactly when `overlapping(q)` yields at least one entry. -/
theorem overlaps_agrees_with_overlapping {I V : Type} [LinearOrder I]
    (m : RangeBoundsMap I V) (q : BoundPair I) (hq : validB q = true) :
    m.overlaps q = (m.overlapping q).head?.isSome ∧
      (m.overlaps q = true ↔ ∃ f ∈ m.inner, helpers.overlaps f.1 q = true) :=
  ⟨rfl, overlaps_true_iff⟩

/-- Witness for C6 at the scenario-A map and the query `2..8`. -/
theorem overlaps_agrees_with_overlapping_witness :
    validB ((Bound.included 2, Bound.excluded 8) : BoundPair Int) = true ∧
      exampleMapABC.overlaps (Bound.included 2, Bound.excluded 8) =
        (exampleMapABC.overlapping
          (Bound.included 2, Bound.excluded 8)).head?.isSome :=
  ⟨by decide,
    (overlaps_agrees_with_overlapping exampleMapABC
      (Bound.included 2, Bound.excluded 8) (by decide)).1⟩

/-- C7: `get_at_point`, `contains_point`, `get_entry_at_point` and
`get_at_point_mut` all behave as the degenerate-range lookup
`Included(p)..Included(p)`: they find the stored entry whose range contains
the point, the head of `overlapping` on that degenerate range; on the
scenario-B map, `get_at_point(4) = some true` and `get_at_point(101) =
none`. -/
theorem point_lookup_spec :
    (∀ (I V : Type) [LinearOrder I] (m : RangeBoundsMap I V) (p : I),
      m.get_entry_at_point p =
        (m.overlapping (Bound.included p, Bound.included p)).head? ∧
      m.get_at_point p = (m.get_entry_at_point p).map Prod.snd ∧
      m.contains_point p = (m.get_entry_at_point p).isSome ∧
      m.get_at_point_mut p = (m.get_entry_at_point p).map Prod.snd) ∧
    exampleMapABC.get_at_point 4 = some true ∧
    exampleMapABC.get_at_point 101 = none := by
  refine ⟨?_, by decide, by decide⟩
  intro I V _ m p
  refine ⟨?_, rfl, rfl, rfl⟩
  unfold RangeBoundsMap.get_entry_at_point storeGet RangeBoundsMap.overlapping
  rw [find?_eq_head?_filter]
  exact congrArg List.head?
    (List.filter_congr (fun e _ => point_pred_eq e.1 p))

/-- C5: `remove_overlapping(q)` is total (it cannot fail), drains exactly the
stored entries overlapping `q` — the same ascending list that `overlapping(q)`
yields — and afterwards `overlapping(q)` on the map is empty while the
non-overlapping entries are kept unchanged. -/
theorem remove_overlapping_spec :
    ∀ (I V : Type) [LinearOrder I] (m : RangeBoundsMap I V) (q : BoundPair I),
      (m.remove_overlapping q).1 = m.overlapping q ∧
      RangeBoundsMap.overlapping (m.remove_overlapping q).2 q = [] ∧
      (m.remove_overlapping q).2.inner =
        m.inner.filter (fun e => !(helpers.overlaps e.1 q)) := by
  intro I V _ m q
  refine ⟨rfl, ?_, rfl⟩
  unfold RangeBoundsMap.remove_overlapping RangeBoundsMap.overlapping
  exact filter_not_filter _ _

/-- C4: `insert_strict(k, v)` succeeds with `Ok(())` and inserts the entry
exactly when `k` overlaps no stored range, and otherwise returns
`Err(OverlapError)` leaving the map unchanged; scenario D:
`insert_strict(5..10, 9)` succeeds on the empty map, a second
`insert_strict(5..10, 2)` errors and the length stays 1. -/
theorem insert_strict_spec :
    (∀ (I V : Type) [LinearOrder I] (m : RangeBoundsMap I V) (k : BoundPair I)
        (v : V),
      ((m.insert_strict k v).1 = Except.ok () ↔ m.overlaps k = false) ∧
      (m.overlaps k = false → (k, v) ∈ (m.insert_strict k v).2.inner) ∧
      (m.overlaps k = true →
        (m.insert_strict k v).1 = Except.error OverlapError.mk ∧
        (m.insert_strict k v).2 = m)) ∧
    (RangeBoundsMap.new.insert_strict (Bound.included 5, Bound.excluded 10)
      (9 : Int)).1 = Except.ok () ∧
    (exampleMapD.insert_strict (Bound.included 5, Bound.excluded 10) 2).1 =
      Except.error OverlapError.mk ∧
    (exampleMapD.insert_strict (Bound.included 5, Bound.excluded 10) 2).2.len =
      1 := by
  refine ⟨?_, rfl, rfl, rfl⟩
  intro I V _ m k v
  by_cases h : m.overlaps k = true
  · refine ⟨?_, ?_, ?_⟩
    · simp [RangeBoundsMap.insert_strict, h]
    · intro hf
      rw [hf] at h
      exact absurd h Bool.false_ne_true
    · intro _
      simp [RangeBoundsMap.insert_strict, h]
  · have h' := bool_eq_false h
    refine ⟨?_, ?_, ?_⟩
    · simp [RangeBoundsMap.insert_strict, h']
    · intro _
      simp only [RangeBoundsMap.insert_strict, h', Bool.false_eq_true,
        if_false]
      exact self_mem_storeInsert _ _
    · intro hc
      rw [hc] at h'
      exact absurd h'.symm Bool.false_ne_true

/-- C8: every range-argument operation aborts (modelled by `none`, the panic
of the operations' `Panics` contract) when handed an invalid range, one whose
start rank exceeds its end rank, and never silently continues. -/
theorem invalid_range_operations_panic :
    ∀ (I V : Type) [LinearOrder I] [DecidableEq I] [Inhabited V] (tfb : Tfb I)
      (m : RangeBoundsMap I V) (q : BoundPair I) (v : V),
      validB q = false →
        m.checked_overlapping q = none ∧
        m.checked_overlaps q = none ∧
        m.checked_remove_overlapping q = none ∧
        RangeBoundsMap.checked_cut tfb m q = none ∧
        m.checked_insert_strict q v = none := by
  intro I V _ _ _ tfb m q v h
  refine ⟨?_, ?_, ?_, ?_, ?_⟩ <;>
    simp [RangeBoundsMap.checked_overlapping, RangeBoundsMap.checked_overlaps,
      RangeBoundsMap.checked_remove_overlapping, RangeBoundsMap.checked_cut,
      RangeBoundsMap.checked_insert_strict, h]

/-- Witness for C8: the invalid range `[5, 2)` over `Int` aborts
`overlapping`. -/
theorem invalid_range_operations_panic_witness :
    validB ((Bound.included 5, Bound.excluded 2) : BoundPair Int) = false ∧
      RangeBoundsMap.checked_overlapping exampleMapABC
        (Bound.included 5, Bound.excluded 2) = none :=
  ⟨by decide,
    (invalid_range_operations_panic Int Bool TryFromBounds.range exampleMapABC
      (Bound.included 5, Bound.excluded 2) true (by decide)).1⟩

/-- C10: for the raw bound-pair key type, `try_from_bounds` always succeeds
with the given bounds (`try_from_bounds.rs`, lines 27-34), and consequently
`cut` never returns `TryFromBoundsError` on such a map: it succeeds for every
valid query range. -/
theorem cut_total_for_bound_pairs :
    (∀ (I : Type) (s e : Bound I), TryFromBounds.pair s e = some (s, e)) ∧
    ∀ (I V : Type) [LinearOrder I] [DecidableEq I] [Inhabited V]
      (m : RangeBoundsMap I V) (q : BoundPair I), validB q = true →
        ∃ l, (RangeBoundsMap.cut TryFromBounds.pair m q).1 = Except.ok l := by
  refine ⟨fun I s e => rfl, ?_⟩
  intro I V _ _ _ m q _
  exact cut_pair_ok m q

/-- Witness for C10: cutting `2..40` out of the scenario map with bound-pair
keys succeeds. -/
theorem cut_total_for_bound_pairs_witness :
    validB ((Bound.included 2, Bound.excluded 40) : BoundPair Int) = true ∧
      ∃ l, (RangeBoundsMap.cut TryFromBounds.pair exampleMapABC
        (Bound.included 2, Bound.excluded 40)).1 = Except.ok l :=
  ⟨by decide,
    cut_total_for_bound_pairs.2 Int Bool exampleMapABC
      (Bound.included 2, Bound.excluded 40) (by decide)⟩

/-- C2, scenario C: on `{[1,4) -> false, [4,8) -> true, [8,100) -> false}`,
`cut(2..40)` returns exactly the three pieces `[2,4) -> false`,
`[4,8) -> true`, `[8,40) -> false` in ascending order, and the map afterwards
is `{[1,2) -> false, [40,100) -> false}`. -/
theorem cut_scenario_c :
    (RangeBoundsMap.cut TryFromBounds.range exampleMapABC
      (Bound.included 2, Bound.excluded 40)).1 =
      Except.ok [((Bound.included 2, Bound.excluded 4), false),
        ((Bound.included 4, Bound.excluded 8), true),
        ((Bound.included 8, Bound.excluded 40), false)] ∧
    (RangeBoundsMap.cut TryFromBounds.range exampleMapABC
      (Bound.included 2, Bound.excluded 40)).2 =
      ⟨[((Bound.included 1, Bound.excluded 2), false),
        ((Bound.included 40, Bound.excluded 100), false)]⟩ :=
  ⟨rfl, rfl⟩

end DiscreteRangeMap
